import Mathlib

set_option maxRecDepth 100000

/-!
Verification of the knowledge-base module of the halo repository
(src/knowledge.py): symbol model, register-annotation filter, thunk
synthesis, artifact emission order, and the JSON persistence codec.

The Python code is shallowly embedded: strings are Lean strings, the
regular expression "@<(\w+)>" is modelled by an explicit scanner over
character lists, Python dictionaries (which preserve insertion order)
are modelled by association lists with first-match lookup and
update-in-place assignment, and the external clang declaration parser
is an oracle passed in as a function argument.  Machine addresses are
natural numbers; the Python code renders them with hex() and parses
them with int(addr, 16), both modelled below.  Fallible Python code
(assertions, TypeError on formatting None, IndexError) is modelled
with Option.
-/

namespace Halo

/-- Word characters of the regex class backslash-w (ASCII range, which
covers every register name the annotation carries). -/
def isWordChar (c : Char) : Bool := c.isAlphanum || c = '_'

/-- Try to match the regex at the head of the character list.  The
pattern is an at sign, a less-than sign, one or more word characters
(the capture group), and a greater-than sign.  Returns the captured
group and the remainder after the match. -/
def regMatchAt : List Char → Option (List Char × List Char)
  | '@' :: '<' :: rest =>
    let run := rest.takeWhile isWordChar
    if run.isEmpty then none
    else
      match rest.drop run.length with
      | '>' :: rest2 => some (run, rest2)
      | _ => none
  | _ => none

/-- Leftmost-match search, as re.search does: returns the text before
the match, the captured register name, and the text after the match. -/
def regSearchAux : List Char → Option (List Char × List Char × List Char)
  | [] => none
  | c :: cs =>
    match regMatchAt (c :: cs) with
    | some (g, rest) => some ([], g, rest)
    | none =>
      match regSearchAux cs with
      | some (pre, g, rest) => some (c :: pre, g, rest)
      | none => none

/-- reg_filter_re.search on a string (src/knowledge.py line 15 and the
uses at lines 69 and 88): the text before the first match, the captured
register name, and the rest. -/
def regSearch (s : String) : Option (String × String × String) :=
  (regSearchAux s.data).map fun t => (String.mk t.1, String.mk t.2.1, String.mk t.2.2)

/-- One pass of re.sub with an empty replacement: scan left to right,
drop every non-overlapping match, keep everything else.  The first
argument is fuel; it is always called with at least the length of the
list, which suffices because every step consumes at least one
character. -/
def regFilterAux : Nat → List Char → List Char
  | 0, _ => []
  | _ + 1, [] => []
  | fuel + 1, c :: cs =>
    match regMatchAt (c :: cs) with
    | some (_, rest) => regFilterAux fuel rest
    | none => c :: regFilterAux fuel cs

/-- filter_reg_assignments (src/knowledge.py lines 17-18): removes every
occurrence of the register-binding marker from a declaration. -/
def filter_reg_assignments (s : String) : String :=
  String.mk (regFilterAux s.data.length s.data)

/-- Python str.find for a single-character needle: index of the first
occurrence, or -1 when absent. -/
def pyFindAux (c : Char) : List Char → Int
  | [] => -1
  | x :: xs =>
    if x = c then 0
    else
      let r := pyFindAux c xs
      if r < 0 then -1 else r + 1

/-- Python s.find(c) for a one-character pattern. -/
def pyFind (s : String) (c : Char) : Int := pyFindAux c s.data

/-- Lowercase hexadecimal digit for a value below 16. -/
def hexDigitChar : Nat → Char
  | 0 => '0' | 1 => '1' | 2 => '2' | 3 => '3' | 4 => '4'
  | 5 => '5' | 6 => '6' | 7 => '7' | 8 => '8' | 9 => '9'
  | 10 => 'a' | 11 => 'b' | 12 => 'c' | 13 => 'd' | 14 => 'e' | 15 => 'f'
  | _ => '0'

/-- Hex digits of n, most significant first, empty for zero.  The first
argument is fuel; fuel n suffices for value n. -/
def toHexAux : Nat → Nat → List Char
  | 0, _ => []
  | fuel + 1, n =>
    if n = 0 then [] else toHexAux fuel (n / 16) ++ [hexDigitChar (n % 16)]

/-- Python hex(n) for a nonnegative n: 0x followed by lowercase hex
digits, with hex(0) rendered as 0x0. -/
def pyHex (n : Nat) : String :=
  "0x" ++ (if n = 0 then "0" else String.mk (toHexAux n n))

/-- Value of one hexadecimal digit character, either case, computed
from the character code. -/
def hexCharVal (c : Char) : Option Nat :=
  if '0' ≤ c ∧ c ≤ '9' then some (c.toNat - '0'.toNat)
  else if 'a' ≤ c ∧ c ≤ 'f' then some (c.toNat - 'a'.toNat + 10)
  else if 'A' ≤ c ∧ c ≤ 'F' then some (c.toNat - 'A'.toNat + 10)
  else none

/-- Digit values of a character list, all of which must be hexadecimal. -/
def hexDigitsOf : List Char → Option (List Nat)
  | [] => some []
  | c :: cs =>
    match hexCharVal c, hexDigitsOf cs with
    | some d, some ds => some (d :: ds)
    | _, _ => none

/-- Removal of the optional 0x or 0X prefix of a hexadecimal numeral. -/
def stripHexMark : List Char → List Char
  | '0' :: 'x' :: rest => rest
  | '0' :: 'X' :: rest => rest
  | other => other

/-- Python int(s, 16) restricted to the strings this program produces
and consumes: an optional 0x or 0X prefix followed by at least one hex
digit (no sign, no underscores, no surrounding whitespace — serialize
never emits those).  A malformed string raises in Python; here it is
none. -/
def pyIntHex (s : String) : Option Nat :=
  match hexDigitsOf (stripHexMark s.data) with
  | some ds => if ds.isEmpty then none else some (ds.foldl (fun acc d => 16 * acc + d) 0)
  | none => none

/-- The tag of the closed class hierarchy of src/knowledge.py: the base
class Symbol (line 27) and its two subclasses Data (line 58) and
Function (line 63). -/
inductive SymKind
  | base
  | data
  | func
deriving DecidableEq, Repr

/-- One recovered symbol: its class tag, its raw declaration text, and
its optional absolute address (Symbol.__init__, lines 28-33; a string
address would already have been parsed with int(addr, 16)). -/
structure Symbol where
  kind : SymKind
  decl : String
  addr : Option Nat
deriving DecidableEq, Repr

/-- The serialized form of one symbol: its declaration and its address
rendered as a hex string (the dict literal at line 52). -/
structure SymRecord where
  decl : String
  addr : String
deriving DecidableEq, Repr

/-- Symbol.serialize (lines 51-52): the declaration together with
hex(addr).  When the address is absent, Python raises a TypeError
inside hex(), so no record is produced. -/
def Symbol.serialize (s : Symbol) : Option SymRecord :=
  s.addr.map fun a => ⟨s.decl, pyHex a⟩

/-- Reconstruction of a symbol of a given class from a record, through
Symbol.__init__ (lines 28-33): the address string is parsed with
int(addr, 16). -/
def Symbol.ofRecord (kind : SymKind) (r : SymRecord) : Option Symbol :=
  (pyIntHex r.addr).map fun a => ⟨kind, r.decl, some a⟩

/-- The classmethod Symbol.deserialize (lines 47-49).  The cls argument
is the class it was invoked on; the body ignores it and always builds a
Function. -/
def Symbol.deserialize (_cls : SymKind) (r : SymRecord) : Option Symbol :=
  Symbol.ofRecord SymKind.func r

/-- requires_reg_thunk: False on the base class (lines 54-56) and on
Data, which inherits it; on Function (lines 67-69) it is whether the
register marker occurs in the declaration. -/
def Symbol.requires_reg_thunk (s : Symbol) : Bool :=
  match s.kind with
  | SymKind.func => (regSearchAux s.decl.data).isSome
  | _ => false

/-- The resolved name of a symbol.  The source obtains it from the
external clang parser applied to the declaration with the marker
stripped (parse_string at lines 20-24, Symbol.name at lines 41-45);
here the parser is the oracle nameFn. -/
def symName (nameFn : String → String) (s : Symbol) : String :=
  nameFn (filter_reg_assignments s.decl)

/-- The externally resolved mangled name of a symbol (cursor.mangled_name
at line 169), with the same oracle treatment. -/
def symMangled (mangleFn : String → String) (s : Symbol) : String :=
  mangleFn (filter_reg_assignments s.decl)

/-- Python s[0:-1]: the string with its last character removed. -/
def dropLastChar (s : String) : String := String.mk s.data.dropLast

/-- Python str.join with a comma-space separator. -/
def joinComma : List String → String
  | [] => ""
  | [x] => x
  | x :: y :: xs => x ++ ", " ++ joinComma (y :: xs)

/-- One argument as reported by the external declaration parser: the
spelling of its type and its own spelling (name). -/
structure CArg where
  typeSpelling : String
  spelling : String
deriving DecidableEq, Repr

/-- What the external clang parser reports for a parsed Function
declaration (the cursor of src/knowledge.py lines 35-39, consumed at
lines 96-98): result type spelling, function spelling, and the ordered
argument list.  The parser is out of scope for this repository, so its
output is an input here. -/
structure ParsedFn where
  resultType : String
  spelling : String
  args : List CArg
deriving DecidableEq, Repr

/-- KnowledgeBase.gen_thunk (src/knowledge.py lines 87-123).  The three
assertions (marker present, no comma in the text before the marker,
find of the opening parenthesis strictly positive) abort the process in
Python; together with the IndexError on an empty argument list and the
TypeError of formatting an absent address they are modelled as none.
On success the emitted text is the pointer declaration named
spelling__xbe initialized to the address, followed by the weak shim in
the thunks section whose body moves the first argument into the bound
register and calls through the pointer with the remaining arguments. -/
def gen_thunk (p : ParsedFn) (s : Symbol) : Option String :=
  match regSearch s.decl with
  | none => none
  | some (text_before, reg, _) =>
    if pyFind text_before ',' < 0 then
      if pyFind text_before '(' > 0 then
        match p.args, s.addr with
        | a0 :: argsTail, some addr =>
          some (p.resultType ++ " (*" ++ p.spelling ++ "__xbe)(/* " ++
            a0.typeSpelling ++ " " ++ a0.spelling ++ "@<" ++ reg ++ ">" ++
            (if argsTail.isEmpty then " */ void"
             else ", */ " ++
               joinComma ((a0 :: argsTail).map fun a => a.typeSpelling ++ " " ++ a.spelling)) ++
            ") = (void*)" ++ pyHex addr ++ ";\n" ++
            "__attribute__((weak))\n" ++
            "__attribute__((section(\"thunks\")))\n" ++
            dropLastChar (filter_reg_assignments s.decl) ++ " \x7b\n" ++
            "  asm mov " ++ reg ++ ", " ++ a0.spelling ++ ";\n" ++
            "  " ++ (if p.resultType ≠ "void" then "return " else "") ++
            p.spelling ++ "__xbe(" ++ joinComma (argsTail.map fun a => a.spelling) ++ ");\n" ++
            "\x7d\n")
        | _, _ => none
      else none
    else none

/-! Python dictionaries preserve insertion order; they are modelled as
association lists with first-match lookup, in-place assignment on an
existing key and append on a fresh one, and — for defaultdict(list) —
append into the bucket of a key. -/

section AssocList

variable {K V : Type} [DecidableEq K]

/-- Dictionary lookup: d.get(k) / k in d. -/
def alookup : List (K × V) → K → Option V
  | [], _ => none
  | (k, v) :: rest, key => if k = key then some v else alookup rest key

/-- Dictionary assignment d[k] = v: the position of an existing key is
kept, a fresh key goes to the end. -/
def aset : List (K × V) → K → V → List (K × V)
  | [], key, v => [(key, v)]
  | (k, w) :: rest, key, v =>
    if k = key then (k, v) :: rest else (k, w) :: aset rest key v

/-- defaultdict(list) d[k].append(x). -/
def dappend : List (K × List V) → K → V → List (K × List V)
  | [], key, x => [(key, [x])]
  | (k, b) :: rest, key, x =>
    if k = key then (k, b ++ [x]) :: rest else (k, b) :: dappend rest key x

/-- Reading a bucket of a defaultdict(list): the stored list, or the
empty list for a missing key (in Python the read also inserts the empty
bucket; nothing in the source observes that insertion afterwards). -/
def lookupBucket (m : List (K × List V)) (k : K) : List V := (alookup m k).getD []

/-- All bucket members in bucket order. -/
def flattenBuckets (m : List (K × List V)) : List V := (m.map Prod.snd).flatten

end AssocList

/-- The KnowledgeBase state (src/knowledge.py lines 71-82).  The
attribute named addr_to_symbols created empty by the constructor is
never read again and the deserializer assigns a singular
addr_to_symbol; one field models the index.  kb_path is file plumbing
and out of scope. -/
structure KB where
  symbols : List Symbol
  object_to_symbols : List (Option String × List Symbol)
  symbol_to_object : List (Symbol × Option String)
  object_to_source : List (Option String × String)
  name_to_addr : List (String × Nat)
  expected_md5 : String
  addr_to_symbol : List (Option Nat × Symbol)
deriving DecidableEq, Repr

/-- A freshly constructed KnowledgeBase. -/
def KB.empty : KB :=
  ⟨[], [], [], [], [], "c7869590a1c64ad034e49a5ee0c02465", []⟩

/-- KnowledgeBase.add_symbols (lines 84-85). -/
def KB.add_symbols (kb : KB) (batch : List Symbol) : KB :=
  { kb with symbols := kb.symbols ++ batch }

/-- isinstance(s, Function) as a Bool, the first sort-key component of
both emitters (lines 140 and 166). -/
def isFuncB (s : Symbol) : Bool := s.kind == SymKind.func

/-- The sort order of both emitters: the key tuple
(isinstance(s, Function), s.name) compared lexicographically, False
before True and names by code points. -/
def symSortRel (nameFn : String → String) (s t : Symbol) : Prop :=
  isFuncB s < isFuncB t ∨
    (isFuncB s = isFuncB t ∧ symName nameFn s ≤ symName nameFn t)

instance (nameFn : String → String) : DecidableRel (symSortRel nameFn) := fun s t => by
  unfold symSortRel
  infer_instance

instance (nameFn : String → String) : IsTotal Symbol (symSortRel nameFn) := by
  constructor
  intro a b
  by_cases h : isFuncB a = isFuncB b
  · rcases le_total (symName nameFn a) (symName nameFn b) with hle | hle
    · exact Or.inl (Or.inr ⟨h, hle⟩)
    · exact Or.inr (Or.inr ⟨h.symm, hle⟩)
  · rcases lt_or_gt_of_ne h with hlt | hlt
    · exact Or.inl (Or.inl hlt)
    · exact Or.inr (Or.inl hlt)

instance (nameFn : String → String) : IsTrans Symbol (symSortRel nameFn) := by
  constructor
  intro a b c hab hbc
  rcases hab with hab | ⟨heab, hnab⟩
  · rcases hbc with hbc | ⟨hebc, _⟩
    · exact Or.inl (lt_trans hab hbc)
    · exact Or.inl (lt_of_lt_of_eq hab hebc)
  · rcases hbc with hbc | ⟨hebc, hnbc⟩
    · exact Or.inl (lt_of_eq_of_lt heab hbc)
    · exact Or.inr ⟨heab.trans hebc, le_trans hnab hnbc⟩

/-- Python sorted with the (isinstance Function, resolved name) key:
a stable comparison sort; any two stable sorts under the same total
preorder agree, so insertion sort models it exactly. -/
def pySortSymbols (nameFn : String → String) (syms : List Symbol) : List Symbol :=
  syms.insertionSort (symSortRel nameFn)

/-- The non-sentinel object names, in dictionary (insertion) order. -/
def objNames (kb : KB) : List String :=
  (kb.object_to_symbols.map Prod.fst).filterMap id

/-- The object iteration order of the header emitter and the
serializer: sorted real object names, then the sentinel (lines 136-137
and 183-184). -/
def headerObjOrder (kb : KB) : List (Option String) :=
  (List.insertionSort (· ≤ ·) (objNames kb)).map some ++ [none]

/-- The sections of build_header (lines 136-150): each object in order
together with its symbols in emission order. -/
def build_header_sections (nameFn : String → String) (kb : KB) :
    List (Option String × List Symbol) :=
  (headerObjOrder kb).map fun o =>
    (o, pySortSymbols nameFn (lookupBucket kb.object_to_symbols o))

/-- The comment line heading one object section (line 139). -/
def objComment (kb : KB) (o : Option String) : String :=
  "// obj:" ++ (match o with
    | some nm => if nm = "" then "?" else nm
    | none => "?") ++
  " src:" ++ ((alookup kb.object_to_source o).getD "?")

/-- The header line of one symbol (lines 141-149): an import marker and
the raw declaration for Data, an export marker and the stripped
declaration for Function, nothing for a base Symbol (the loop has no
branch for it). -/
def headerSymbolLine (s : Symbol) : Option String :=
  match s.kind with
  | SymKind.data => some ("HDATA " ++ s.decl)
  | SymKind.func => some ("HFUNC " ++ filter_reg_assignments s.decl)
  | SymKind.base => none

/-- The declaration lines of the generated header, in emission order
(the constant banners and the blank separator lines carry no symbol
information and are omitted). -/
def build_header_lines (nameFn : String → String) (kb : KB) : List String :=
  (build_header_sections nameFn kb).flatMap fun sec =>
    objComment kb sec.1 :: sec.2.filterMap headerSymbolLine

/-- The symbols written by build_def (lines 160-169), in order: all
symbols sorted under the emitter key, those requiring a register thunk
skipped. -/
def build_def_entries (nameFn : String → String) (kb : KB) : List Symbol :=
  (pySortSymbols nameFn kb.symbols).filter fun s => !s.requires_reg_thunk

/-- The export lines of build_def (line 169): a tab, the externally
resolved mangled name, and a DATA suffix for Data symbols. -/
def build_def_lines (nameFn mangleFn : String → String) (kb : KB) : List String :=
  (build_def_entries nameFn kb).map fun s =>
    "\t" ++ symMangled mangleFn s ++ (if s.kind = SymKind.data then " DATA" else "")

/-- The address index built at src/knowledge.py line 227: the dict
comprehension over all symbols keyed by address, that is, successive
dictionary assignment. -/
def buildAddrIndex (syms : List Symbol) : List (Option Nat × Symbol) :=
  syms.foldl (fun d s => aset d s.addr s) []

/-- Python truthiness of a looked-up object attribution (line 229
filters on the attribution value itself): None and the empty string are
falsy.  A missing key would raise there; the load step attributes every
symbol it creates, and a raise is approximated as falsy. -/
def pyTruthyObj : Option (Option String) → Bool
  | some (some nm) => nm ≠ ""
  | some none => false
  | none => false

/-- Line 229: how many symbols carry a truthy object attribution. -/
def num_symbols_with_truth (kb : KB) : Nat :=
  (kb.symbols.filter fun s => pyTruthyObj (alookup kb.symbol_to_object s)).length

/-- Line 230: the remaining symbols. -/
def num_symbols_without_truth (kb : KB) : Nat :=
  kb.symbols.length - num_symbols_with_truth kb

/-- Line 233: sourced objects that also own a bucket. -/
def num_objs_with_source (kb : KB) : Nat :=
  (kb.object_to_source.filter fun p =>
    (alookup kb.object_to_symbols p.1).isSome).length

/-- Every diagnostic message the load step emits (the log.info calls of
KnowledgeBase.deserialize at lines 202, 232 and 234), rendered with
their counts.  Nothing else is logged on load. -/
def deserializeLogs (kb : KB) : List String :=
  ["Loading knowledge base...",
   toString (num_symbols_with_truth kb) ++ " symbols were identified with objects, " ++
     toString (num_symbols_without_truth kb) ++ " were not",
   toString (num_objs_with_source kb) ++ " of " ++
     toString kb.object_to_symbols.length ++ " object files have known source mapping"]

/-- A loaded Knowledge Base whose two symbols share the address 0x1000. -/
def kbCollide : KB :=
  { KB.empty with
    symbols := [⟨SymKind.func, "int A(void);", some 4096⟩,
                ⟨SymKind.func, "int B(void);", some 4096⟩],
    object_to_symbols := [(some "o.obj",
      [⟨SymKind.func, "int A(void);", some 4096⟩,
       ⟨SymKind.func, "int B(void);", some 4096⟩])],
    symbol_to_object := [(⟨SymKind.func, "int A(void);", some 4096⟩, some "o.obj"),
                         (⟨SymKind.func, "int B(void);", some 4096⟩, some "o.obj")] }

/-- Repeated bucket append: d[k].append(x) once per element of l. -/
def dappendMany {K V : Type} [DecidableEq K]
    (m : List (K × List V)) (k : K) (l : List V) : List (K × List V) :=
  l.foldl (fun m x => dappend m k x) m

/-- The bucket sizes of a grouping, summed. -/
def sumBuckets (m : List (Option String × List Symbol)) : Nat :=
  (m.map fun e => e.2.length).sum

/-- One step of the attribution-finalizing loop of KnowledgeBase.serialize
(lines 178-181): a symbol without an entry in symbol_to_object is
appended to the sentinel bucket and attributed to the sentinel. -/
def finStep
    (acc : List (Option String × List Symbol) × List (Symbol × Option String))
    (s : Symbol) :
    List (Option String × List Symbol) × List (Symbol × Option String) :=
  if (alookup acc.2 s).isNone then (dappend acc.1 none s, aset acc.2 s none)
  else acc

/-- The attribution-finalizing pass run by serialize before emission:
every symbol not yet attributed is moved into the sentinel bucket. -/
def finalize_attribution (kb : KB) : KB :=
  let r := kb.symbols.foldl finStep (kb.object_to_symbols, kb.symbol_to_object)
  { kb with object_to_symbols := r.1, symbol_to_object := r.2 }

/-- The symbols the finalizing pass moves: those without an attribution
entry, in symbol order. -/
def unattributed (kb : KB) : List Symbol :=
  kb.symbols.filter fun s => (alookup kb.symbol_to_object s).isNone

/-- Python sorted(symbols, key=lambda s: s.addr) of the serializer
(lines 191 and 194).  Comparing an absent address raises in Python; the
model totalizes it with zero, and every serialization that succeeds has
all addresses present, where the two agree. -/
def sortByAddrKey (syms : List Symbol) : List Symbol :=
  syms.insertionSort fun s t => s.addr.getD 0 ≤ t.addr.getD 0

/-- One serialized object entry (lines 188-197): its name (null for the
sentinel), an optional source path, and the Data and Function symbol
records; an empty list models an absent key, exactly how the
deserializer treats it. -/
structure ObjData where
  name : Option String
  source : Option String
  data : List SymRecord
  functions : List SymRecord
deriving DecidableEq, Repr

/-- The per-object emission loop of KnowledgeBase.serialize (lines
184-197) over a given object order: empty buckets are skipped; for the
rest, the bucket is sorted by address and split into Data records then
Function records; hex-rendering an absent address raises, modelled as
none. -/
def serializeObjsAux (kb : KB) : List (Option String) → Option (List ObjData)
  | [] => some []
  | o :: rest =>
    let symbols := lookupBucket kb.object_to_symbols o
    if symbols.isEmpty then serializeObjsAux kb rest
    else
      match ((sortByAddrKey symbols).filter fun s =>
              s.kind == SymKind.data).mapM Symbol.serialize,
            ((sortByAddrKey symbols).filter fun s =>
              s.kind == SymKind.func).mapM Symbol.serialize,
            serializeObjsAux kb rest with
      | some dataRecs, some funcRecs, some out =>
        some (⟨o, alookup kb.object_to_source o, dataRecs, funcRecs⟩ :: out)
      | _, _, _ => none

/-- KnowledgeBase.serialize (lines 171-198): first the finalizing pass
mutates the Knowledge Base, then the objects are emitted in sorted
order with the sentinel last.  The result is the written structure
together with the mutated state. -/
def KB.serialize (kb : KB) : Option (List ObjData) × KB :=
  let kb1 := finalize_attribution kb
  (serializeObjsAux kb1 (headerObjOrder kb1), kb1)

/-- Reconstruction of the symbols of one serialized list (lines 212 and
214), each through the class constructor. -/
def mkSyms (kind : SymKind) (rs : List SymRecord) : Option (List Symbol) :=
  rs.mapM (Symbol.ofRecord kind)

/-- The per-symbol body of the deserializing loop (lines 217-221):
group, attribute, and — for a truthy address — index by resolved
name. -/
def desStep (nameFn : String → String) (o : Option String) (kb2 : KB)
    (s : Symbol) : KB :=
  { kb2 with
    object_to_symbols := dappend kb2.object_to_symbols o s,
    symbol_to_object := aset kb2.symbol_to_object s o,
    name_to_addr := match s.addr with
      | some a =>
        if a ≠ 0 then aset kb2.name_to_addr (symName nameFn s) a
        else kb2.name_to_addr
      | none => kb2.name_to_addr }

/-- Processing of one serialized object entry by KnowledgeBase.deserialize
(lines 207-221): the source mapping is recorded first when present, the
Function records then the Data records are rebuilt, and a nonempty
symbol list is appended to the store and attributed. -/
def deserializeObj (nameFn : String → String) (kb : KB) (od : ObjData) :
    Option KB :=
  let kb0 := match od.source with
    | some src => { kb with object_to_source := aset kb.object_to_source od.name src }
    | none => kb
  match mkSyms SymKind.func od.functions, mkSyms SymKind.data od.data with
  | some funcs, some datas =>
    let objSyms := funcs ++ datas
    if objSyms.isEmpty then some kb0
    else
      some (objSyms.foldl (desStep nameFn od.name)
        { kb0 with symbols := kb0.symbols ++ objSyms })
  | _, _ => none

/-- KnowledgeBase.deserialize (lines 200-236) on an in-memory
structure: a fresh Knowledge Base is filled object by object, then the
address index is built over all symbols.  The optional external truth
loader (lines 223-225) is an injected collaborator that is absent
here, a no-op. -/
def KB.deserialize (nameFn : String → String) (objs : List ObjData) :
    Option KB :=
  (objs.foldlM (deserializeObj nameFn) KB.empty).map fun kb =>
    { kb with addr_to_symbol := buildAddrIndex kb.symbols }

/-- The record a successful Symbol.serialize produces, as a total
function of a symbol whose address is present (an absent address is
totalized with zero; serialization of such a symbol fails anyway). -/
def serTot (s : Symbol) : SymRecord := ⟨s.decl, pyHex (s.addr.getD 0)⟩

/-- The symbols one serialized object entry decodes back to, in decoded
order: the Function records first, then the Data records, each group in
address order. -/
def fsds (kb : KB) (o : Option String) : List Symbol :=
  ((sortByAddrKey (lookupBucket kb.object_to_symbols o)).filter fun s =>
    s.kind == SymKind.func) ++
  ((sortByAddrKey (lookupBucket kb.object_to_symbols o)).filter fun s =>
    s.kind == SymKind.data)

/-- What the serializer emits for one object: nothing for an empty
bucket, otherwise the entry with its optional source and its Data then
Function records. -/
def emittedObj (kb : KB) (o : Option String) : Option ObjData :=
  if (lookupBucket kb.object_to_symbols o).isEmpty then none
  else some ⟨o, alookup kb.object_to_source o,
    ((sortByAddrKey (lookupBucket kb.object_to_symbols o)).filter fun s =>
      s.kind == SymKind.data).map serTot,
    ((sortByAddrKey (lookupBucket kb.object_to_symbols o)).filter fun s =>
      s.kind == SymKind.func).map serTot⟩

/-- A small well-formed Knowledge Base: one Data symbol attributed to
an object with a known source, and one unattributed Function symbol. -/
def kbSample : KB :=
  { KB.empty with
    symbols := [⟨SymKind.data, "int x;", some 4096⟩,
                ⟨SymKind.func, "void f(void);", some 8192⟩],
    object_to_symbols := [(some "a.obj", [⟨SymKind.data, "int x;", some 4096⟩])],
    symbol_to_object := [(⟨SymKind.data, "int x;", some 4096⟩, some "a.obj")],
    object_to_source := [(some "a.obj", "a.c")] }

/-- A Knowledge Base that also records a source for an object owning no
symbols — the state the load path itself produces from a snapshot whose
object entry carries a source but no symbol lists (lines 208-209 record
the source before any symbols are seen). -/
def kbSourceOnly : KB :=
  { KB.empty with
    symbols := [⟨SymKind.data, "int x;", some 4096⟩],
    object_to_symbols := [(some "a.obj", [⟨SymKind.data, "int x;", some 4096⟩])],
    symbol_to_object := [(⟨SymKind.data, "int x;", some 4096⟩, some "a.obj")],
    object_to_source := [(some "a.obj", "a.c"), (some "b.obj", "b.c")] }

/-- The same Knowledge Base with the collision repaired. -/
def kbNoCollide : KB :=
  { KB.empty with
    symbols := [⟨SymKind.func, "int A(void);", some 4096⟩,
                ⟨SymKind.func, "int B(void);", some 8192⟩],
    object_to_symbols := [(some "o.obj",
      [⟨SymKind.func, "int A(void);", some 4096⟩,
       ⟨SymKind.func, "int B(void);", some 8192⟩])],
    symbol_to_object := [(⟨SymKind.func, "int A(void);", some 4096⟩, some "o.obj"),
                         (⟨SymKind.func, "int B(void);", some 8192⟩, some "o.obj")] }

end Halo

namespace Halo

/-- C9: Data symbols — and base Symbol instances, which are not
Functions — never require a register thunk, whatever their declaration
text contains, so only Function symbols can be routed to thunk
synthesis or excluded from the module-definition output. -/
theorem requires_reg_thunk_only_functions :
    ∀ (decl : String) (addr : Option Nat),
      Symbol.requires_reg_thunk ⟨SymKind.data, decl, addr⟩ = false ∧
      Symbol.requires_reg_thunk ⟨SymKind.base, decl, addr⟩ = false := by
  intro decl addr
  exact ⟨rfl, rfl⟩

/-- C10: the classmethod Symbol.deserialize builds a Function variant
whatever class it is invoked on, so this entry point never
reconstructs the Data variant. -/
theorem symbol_deserialize_always_function :
    ∀ (cls : SymKind) (r : SymRecord) (s : Symbol),
      Symbol.deserialize cls r = some s → s.kind = SymKind.func := by
  intro cls r s h
  unfold Symbol.deserialize Symbol.ofRecord at h
  cases hp : pyIntHex r.addr with
  | none => rw [hp] at h; simp at h
  | some a => rw [hp] at h; simp at h; rw [← h]

/-- Witness for C10 at a concrete record. -/
theorem symbol_deserialize_always_function_witness :
    Symbol.deserialize SymKind.data ⟨"int g_var;", "0x2f00"⟩ =
      some ⟨SymKind.func, "int g_var;", some 0x2f00⟩ ∧
    (⟨SymKind.func, "int g_var;", some 0x2f00⟩ : Symbol).kind = SymKind.func := by
  refine ⟨by decide, ?_⟩
  exact symbol_deserialize_always_function SymKind.data ⟨"int g_var;", "0x2f00"⟩ _ (by decide)

/-- C8: Symbol.serialize is defined exactly on symbols with a present
address: with an address it yields the declaration and the address
rendered in hexadecimal, and with an absent address it fails (Python
raises a TypeError inside hex) rather than producing a record. -/
theorem symbol_serialize_spec :
    (∀ (s : Symbol) (a : Nat), s.addr = some a →
        Symbol.serialize s = some ⟨s.decl, pyHex a⟩) ∧
    (∀ s : Symbol, s.addr = none → Symbol.serialize s = none) := by
  constructor
  · intro s a h
    unfold Symbol.serialize
    rw [h]
    rfl
  · intro s h
    unfold Symbol.serialize
    rw [h]
    rfl

/-! Hexadecimal round trip: parsing the rendering of an address gives
the address back.  Used by the persistence round-trip proof. -/

theorem hexCharVal_hexDigitChar (m : Nat) (hm : m < 16) :
    hexCharVal (hexDigitChar m) = some m := by
  interval_cases m <;> decide

theorem hexDigitsOf_append {xs : List Char} {ds : List Nat} {c : Char} {d : Nat}
    (hxs : hexDigitsOf xs = some ds) (hc : hexCharVal c = some d) :
    hexDigitsOf (xs ++ [c]) = some (ds ++ [d]) := by
  induction xs generalizing ds with
  | nil =>
    unfold hexDigitsOf at hxs
    cases hxs
    simp [hexDigitsOf, hc]
  | cons x xs ih =>
    simp only [List.cons_append, hexDigitsOf] at hxs ⊢
    cases hx : hexCharVal x with
    | none => simp [hx] at hxs
    | some dx =>
      cases hrest : hexDigitsOf xs with
      | none => simp [hx, hrest] at hxs
      | some drest =>
        simp [hx, hrest] at hxs
        simp only [List.append_eq]
        rw [ih hrest]
        simp [← hxs]

theorem toHexAux_spec :
    ∀ (fuel n : Nat), n < 16 ^ fuel →
      ∃ ds, hexDigitsOf (toHexAux fuel n) = some ds ∧
        ds.foldl (fun acc d => 16 * acc + d) 0 = n := by
  intro fuel
  induction fuel with
  | zero =>
    intro n h
    simp at h
    subst h
    exact ⟨[], rfl, rfl⟩
  | succ fuel ih =>
    intro n h
    by_cases h0 : n = 0
    · subst h0
      exact ⟨[], by simp [toHexAux, hexDigitsOf], rfl⟩
    · have hdiv : n / 16 < 16 ^ fuel := by
        have h16 : (0 : Nat) < 16 := by norm_num
        rw [Nat.div_lt_iff_lt_mul h16]
        rw [pow_succ] at h
        exact h
      obtain ⟨ds, hds, hfold⟩ := ih (n / 16) hdiv
      refine ⟨ds ++ [n % 16], ?_, ?_⟩
      · show hexDigitsOf (toHexAux (fuel + 1) n) = _
        unfold toHexAux
        rw [if_neg h0]
        exact hexDigitsOf_append hds
          (hexCharVal_hexDigitChar _ (Nat.mod_lt _ (by norm_num)))
      · rw [List.foldl_append, hfold]
        simp
        omega

theorem pyIntHex_pyHex (n : Nat) : pyIntHex (pyHex n) = some n := by
  by_cases h0 : n = 0
  · subst h0
    decide
  · have hlt : n < 16 ^ n := Nat.lt_pow_self (by norm_num) n
    obtain ⟨ds, hds, hfold⟩ := toHexAux_spec n n hlt
    have hdata : (pyHex n).data = '0' :: 'x' :: toHexAux n n := by
      unfold pyHex
      rw [if_neg h0]
      rw [String.data_append]
      rfl
    unfold pyIntHex
    rw [hdata]
    have hstrip : stripHexMark ('0' :: 'x' :: toHexAux n n) = toHexAux n n := rfl
    rw [hstrip, hds]
    have hne : ds ≠ [] := by
      intro he
      subst he
      simp at hfold
      exact h0 hfold.symm
    simp [List.isEmpty_iff, hne, hfold]

/-- Witness for C8 at concrete symbols, one with and one without an
address. -/
theorem symbol_serialize_spec_witness :
    (⟨SymKind.data, "int x;", some 255⟩ : Symbol).addr = some 255 ∧
    Symbol.serialize ⟨SymKind.data, "int x;", some 255⟩ = some ⟨"int x;", "0xff"⟩ ∧
    (⟨SymKind.func, "void f(void);", none⟩ : Symbol).addr = none ∧
    Symbol.serialize ⟨SymKind.func, "void f(void);", none⟩ = none := by
  refine ⟨rfl, ?_, rfl, ?_⟩
  · have h := symbol_serialize_spec.1 ⟨SymKind.data, "int x;", some 255⟩ 255 rfl
    rw [h]
    decide
  · exact symbol_serialize_spec.2 ⟨SymKind.func, "void f(void);", none⟩ rfl

/-- C2 counterexample: the claim asserts that synthesis succeeds
whenever an annotation is present, no comma precedes it, and the
annotation does not precede the opening parenthesis of the argument
list.  For the declaration below the annotation sits on the sole first
parameter and an opening parenthesis occurs before it (find yields 0),
yet gen_thunk aborts, because the source asserts find strictly greater
than 0, not merely that a parenthesis precedes the annotation. -/
theorem gen_thunk_claim_counterexample :
    gen_thunk ⟨"int", "f", [⟨"int", "a"⟩]⟩
        ⟨SymKind.func, "(int a @<eax>);", some 4096⟩ = none ∧
    regSearch "(int a @<eax>);" = some ("(int a ", "eax", ");") ∧
    pyFind "(int a " ',' < 0 ∧
    0 ≤ pyFind "(int a " '(' ∧
    Symbol.requires_reg_thunk ⟨SymKind.func, "(int a @<eax>);", some 4096⟩ = true := by
  refine ⟨?_, by decide, by decide, by decide, by decide⟩
  decide

/-- C2 as amended: for a Function symbol with a known address whose
parsed argument list is nonempty, thunk synthesis succeeds exactly when
the declaration carries a register annotation, the text before the
annotation contains no comma, and the first opening parenthesis of the
declaration occurs before the annotation at a strictly positive index
(so a declaration whose very first character is the parenthesis still
aborts); with no annotation, a comma before it, or no parenthesis
before it, synthesis aborts fatally. -/
theorem gen_thunk_precondition_amended (p : ParsedFn) (s : Symbol) (n : Nat)
    (a0 : CArg) (tl : List CArg)
    (ha : s.addr = some n) (hargs : p.args = a0 :: tl) :
    (gen_thunk p s).isSome = true ↔
      ∃ pre reg rest, regSearch s.decl = some (pre, reg, rest) ∧
        pyFind pre ',' < 0 ∧ pyFind pre '(' > 0 := by
  unfold gen_thunk
  cases hm : regSearch s.decl with
  | none => simp
  | some t =>
    obtain ⟨pre, reg, rest⟩ := t
    by_cases hc : pyFind pre ',' < 0
    · by_cases hp2 : pyFind pre '(' > 0
      · simp [hc, hp2, hargs, ha]
      · simp [hc, hp2]
    · simp [hc]

/-- Witness for the amended C2 in both directions: a well-shaped
declaration on which synthesis succeeds, and the success condition it
exposes. -/
theorem gen_thunk_precondition_amended_witness :
    ((⟨SymKind.func, "int Foo(int a @<eax>, int b);", some 4096⟩ : Symbol).addr =
        some 4096) ∧
    ((⟨"int", "Foo", [⟨"int", "a"⟩, ⟨"int", "b"⟩]⟩ : ParsedFn).args =
        ⟨"int", "a"⟩ :: [⟨"int", "b"⟩]) ∧
    ((gen_thunk ⟨"int", "Foo", [⟨"int", "a"⟩, ⟨"int", "b"⟩]⟩
        ⟨SymKind.func, "int Foo(int a @<eax>, int b);", some 4096⟩).isSome = true ↔
      ∃ pre reg rest,
        regSearch "int Foo(int a @<eax>, int b);" = some (pre, reg, rest) ∧
          pyFind pre ',' < 0 ∧ pyFind pre '(' > 0) := by
  refine ⟨rfl, rfl, ?_⟩
  exact gen_thunk_precondition_amended
    ⟨"int", "Foo", [⟨"int", "a"⟩, ⟨"int", "b"⟩]⟩
    ⟨SymKind.func, "int Foo(int a @<eax>, int b);", some 4096⟩
    4096 ⟨"int", "a"⟩ [⟨"int", "b"⟩] rfl rfl

/-- C3: for a Function symbol with a single annotation on its first
parameter (checks passed) and a known address, gen_thunk emits the
pointer declaration named spelling__xbe initialized to the address cast
to a pointer, and a shim that first moves the first parameter into the
bound register, then calls through spelling__xbe passing exactly the
remaining parameters in their original order, prefixed with the return
keyword unless the resolved return type is exactly void. -/
theorem gen_thunk_emission (p : ParsedFn) (s : Symbol) (pre reg rest : String)
    (n : Nat) (a0 : CArg) (tl : List CArg)
    (hm : regSearch s.decl = some (pre, reg, rest))
    (hc : pyFind pre ',' < 0)
    (hp2 : pyFind pre '(' > 0)
    (ha : s.addr = some n)
    (hargs : p.args = a0 :: tl) :
    gen_thunk p s = some (p.resultType ++ " (*" ++ p.spelling ++ "__xbe)(/* " ++
      a0.typeSpelling ++ " " ++ a0.spelling ++ "@<" ++ reg ++ ">" ++
      (if tl.isEmpty then " */ void"
       else ", */ " ++
         joinComma ((a0 :: tl).map fun a => a.typeSpelling ++ " " ++ a.spelling)) ++
      ") = (void*)" ++ pyHex n ++ ";\n" ++
      "__attribute__((weak))\n" ++
      "__attribute__((section(\"thunks\")))\n" ++
      dropLastChar (filter_reg_assignments s.decl) ++ " \x7b\n" ++
      "  asm mov " ++ reg ++ ", " ++ a0.spelling ++ ";\n" ++
      "  " ++ (if p.resultType ≠ "void" then "return " else "") ++
      p.spelling ++ "__xbe(" ++ joinComma (tl.map fun a => a.spelling) ++ ");\n" ++
      "\x7d\n") := by
  unfold gen_thunk
  rw [hm]
  simp only [if_pos hc, if_pos hp2, hargs, ha]

/-- Witness for C3: the worked example of the specification, a two
argument function with the annotation on the first parameter. -/
theorem gen_thunk_emission_witness :
    regSearch "int Foo(int a @<eax>, int b);" =
        some ("int Foo(int a ", "eax", ", int b);") ∧
    pyFind "int Foo(int a " ',' < 0 ∧
    pyFind "int Foo(int a " '(' > 0 ∧
    gen_thunk ⟨"int", "Foo", [⟨"int", "a"⟩, ⟨"int", "b"⟩]⟩
        ⟨SymKind.func, "int Foo(int a @<eax>, int b);", some 4096⟩ =
      some ("int (*Foo__xbe)(/* int a@<eax>, */ int a, int b) = (void*)0x1000;\n" ++
        "__attribute__((weak))\n" ++
        "__attribute__((section(\"thunks\")))\n" ++
        "int Foo(int a , int b) \x7b\n" ++
        "  asm mov eax, a;\n" ++
        "  return Foo__xbe(b);\n" ++
        "\x7d\n") := by
  refine ⟨by decide, by decide, by decide, ?_⟩
  rw [gen_thunk_emission ⟨"int", "Foo", [⟨"int", "a"⟩, ⟨"int", "b"⟩]⟩
    ⟨SymKind.func, "int Foo(int a @<eax>, int b);", some 4096⟩
    "int Foo(int a " "eax" ", int b);" 4096 ⟨"int", "a"⟩ [⟨"int", "b"⟩]
    (by decide) (by decide) (by decide) rfl rfl]
  decide

/-- The emitter sort order implies the grouping properties the
specification states: no Function strictly before a Data symbol, and
names nondecreasing inside one kind. -/
theorem symSortRel_shape (nameFn : String → String) {s t : Symbol}
    (h : symSortRel nameFn s t) :
    (¬(s.kind = SymKind.func ∧ t.kind = SymKind.data)) ∧
    (s.kind = t.kind → symName nameFn s ≤ symName nameFn t) := by
  constructor
  · rintro ⟨hs, ht⟩
    have hfs : isFuncB s = true := by simp [isFuncB, hs]
    have hft : isFuncB t = false := by simp [isFuncB, ht]
    rcases h with h | ⟨he, _⟩
    · rw [hfs, hft] at h
      exact absurd h (by decide)
    · rw [hfs, hft] at he
      exact Bool.noConfusion he
  · intro hk
    have he : isFuncB s = isFuncB t := by simp [isFuncB, hk]
    rcases h with h | ⟨_, hn⟩
    · rw [he] at h
      exact absurd h (lt_irrefl _)
    · exact hn

/-- C4: in the header output the object sections appear in code-point
order of the object names with the sentinel bucket last, and inside
every section the emitted symbols carry no Function strictly before a
Data symbol and are name-sorted inside each kind. -/
theorem header_ordering (nameFn : String → String) (kb : KB) :
    ((build_header_sections nameFn kb).map Prod.fst =
      (List.insertionSort (· ≤ ·) (objNames kb)).map some ++ [none]) ∧
    List.Sorted (· ≤ ·) (List.insertionSort (· ≤ ·) (objNames kb)) ∧
    (∀ sec ∈ build_header_sections nameFn kb,
      sec.2.Pairwise fun s t =>
        (¬(s.kind = SymKind.func ∧ t.kind = SymKind.data)) ∧
        (s.kind = t.kind → symName nameFn s ≤ symName nameFn t)) := by
  refine ⟨?_, List.sorted_insertionSort _ _, ?_⟩
  · rw [build_header_sections, List.map_map]
    have hcomp : (Prod.fst ∘ fun o : Option String =>
        (o, pySortSymbols nameFn (lookupBucket kb.object_to_symbols o))) = id := rfl
    rw [hcomp, List.map_id]
    rfl
  · intro sec hsec
    simp only [build_header_sections, List.mem_map] at hsec
    obtain ⟨o, _, rfl⟩ := hsec
    have hsorted := List.sorted_insertionSort (symSortRel nameFn)
      (lookupBucket kb.object_to_symbols o)
    exact hsorted.imp (symSortRel_shape nameFn)

/-- C5: the module-definition output contains no Function symbol whose
declaration carries a register annotation; every other symbol appears
exactly as often as in the symbol list (once, under distinctness), in
the Data-before-Function then name order; and each line is a tab, the
mangled name, and a DATA suffix exactly for Data symbols. -/
theorem def_file_contents (nameFn mangleFn : String → String) (kb : KB) :
    (∀ s ∈ build_def_entries nameFn kb, s.requires_reg_thunk = false) ∧
    (∀ s : Symbol, (build_def_entries nameFn kb).count s =
      if s.requires_reg_thunk then 0 else kb.symbols.count s) ∧
    (kb.symbols.Nodup → ∀ s ∈ kb.symbols, s.requires_reg_thunk = false →
      (build_def_entries nameFn kb).count s = 1) ∧
    (build_def_entries nameFn kb).Pairwise (fun s t =>
        (¬(s.kind = SymKind.func ∧ t.kind = SymKind.data)) ∧
        (s.kind = t.kind → symName nameFn s ≤ symName nameFn t)) ∧
    (build_def_lines nameFn mangleFn kb = (build_def_entries nameFn kb).map fun s =>
      "\t" ++ symMangled mangleFn s ++ (if s.kind = SymKind.data then " DATA" else "")) := by
  have hcount : ∀ s : Symbol, (build_def_entries nameFn kb).count s =
      if s.requires_reg_thunk then 0 else kb.symbols.count s := by
    intro s
    by_cases hr : s.requires_reg_thunk
    · rw [if_pos hr]
      apply List.count_eq_zero_of_not_mem
      intro hmem
      rw [build_def_entries, List.mem_filter] at hmem
      rw [hr] at hmem
      exact Bool.noConfusion hmem.2
    · rw [if_neg hr]
      rw [build_def_entries]
      rw [List.count_filter (by simp [Bool.not_eq_true] at hr ⊢; exact hr)]
      exact (List.perm_insertionSort (symSortRel nameFn) kb.symbols).count_eq s
  refine ⟨?_, hcount, ?_, ?_, rfl⟩
  · intro s hs
    rw [build_def_entries, List.mem_filter] at hs
    simpa using hs.2
  · intro hnd s hs hr
    rw [hcount s, if_neg (by simp [hr])]
    exact List.count_eq_one_of_mem hnd hs
  · exact ((List.sorted_insertionSort (symSortRel nameFn) kb.symbols).filter
      _).imp (symSortRel_shape nameFn)

/-- Witness for C5 on a concrete three-symbol Knowledge Base holding a
Data symbol, a plain Function, and a Function requiring a register
thunk. -/
theorem def_file_contents_witness :
    ({ KB.empty with symbols :=
        [⟨SymKind.data, "int z;", some 1⟩,
         ⟨SymKind.func, "void a(void);", some 2⟩,
         ⟨SymKind.func, "int t(int x @<eax>);", some 3⟩] } : KB).symbols.Nodup ∧
    (⟨SymKind.func, "void a(void);", some 2⟩ : Symbol) ∈
      ({ KB.empty with symbols :=
        [⟨SymKind.data, "int z;", some 1⟩,
         ⟨SymKind.func, "void a(void);", some 2⟩,
         ⟨SymKind.func, "int t(int x @<eax>);", some 3⟩] } : KB).symbols ∧
    (⟨SymKind.func, "void a(void);", some 2⟩ : Symbol).requires_reg_thunk = false ∧
    (build_def_entries (fun x => x)
      { KB.empty with symbols :=
        [⟨SymKind.data, "int z;", some 1⟩,
         ⟨SymKind.func, "void a(void);", some 2⟩,
         ⟨SymKind.func, "int t(int x @<eax>);", some 3⟩] }).count
      ⟨SymKind.func, "void a(void);", some 2⟩ = 1 := by
  refine ⟨by decide, by decide, by decide, ?_⟩
  exact (def_file_contents (fun x => x) (fun x => x)
    { KB.empty with symbols :=
        [⟨SymKind.data, "int z;", some 1⟩,
         ⟨SymKind.func, "void a(void);", some 2⟩,
         ⟨SymKind.func, "int t(int x @<eax>);", some 3⟩] }).2.2.1
    (by decide) _ (by decide) (by decide)

/-! Lookup facts about dictionary assignment, and the last-write-wins
shape of the address index. -/

theorem alookup_aset_self {K V : Type} [DecidableEq K]
    (d : List (K × V)) (k : K) (v : V) : alookup (aset d k v) k = some v := by
  induction d with
  | nil => simp [aset, alookup]
  | cons p rest ih =>
    obtain ⟨k0, v0⟩ := p
    by_cases h : k0 = k
    · subst h
      simp [aset, alookup]
    · simp [aset, alookup, h, ih]

theorem alookup_aset_ne {K V : Type} [DecidableEq K]
    (d : List (K × V)) {k k' : K} (v : V) (h : k' ≠ k) :
    alookup (aset d k v) k' = alookup d k' := by
  induction d with
  | nil => simp [aset, alookup, Ne.symm h]
  | cons p rest ih =>
    obtain ⟨k0, v0⟩ := p
    by_cases h0 : k0 = k
    · subst h0
      simp [aset, alookup, Ne.symm h]
    · simp only [aset, alookup, if_neg h0]
      by_cases h1 : k0 = k'
      · simp [h1]
      · simp [h1, ih]

theorem getLast?_cons_orElse {α : Type} (a : α) (l : List α) :
    (a :: l).getLast? = l.getLast?.orElse (fun _ => some a) := by
  induction l generalizing a with
  | nil => rfl
  | cons b l ih =>
    rw [List.getLast?_cons_cons]
    rw [ih b]
    cases hl : l.getLast? <;> rfl

theorem alookup_foldl_aset (syms : List Symbol)
    (d : List (Option Nat × Symbol)) (k : Option Nat) :
    alookup (syms.foldl (fun d s => aset d s.addr s) d) k =
      ((syms.filter fun s => s.addr == k).getLast?).orElse (fun _ => alookup d k) := by
  induction syms generalizing d with
  | nil => rfl
  | cons s rest ih =>
    rw [List.foldl_cons, ih]
    by_cases h : s.addr = k
    · rw [List.filter_cons_of_pos (by simp [h])]
      rw [getLast?_cons_orElse]
      cases hf : (rest.filter fun t => t.addr == k).getLast? with
      | some x => rfl
      | none => simp [Option.orElse, h, alookup_aset_self]
    · rw [List.filter_cons_of_neg (by simp [h])]
      cases hf : (rest.filter fun t => t.addr == k).getLast? with
      | some x => rfl
      | none => simp [Option.orElse, alookup_aset_ne d s (Ne.symm h)]

/-! Further dictionary lemmas: append decomposition, membership, and
the behaviour of bucket append. -/

theorem alookup_append {K V : Type} [DecidableEq K]
    (d₁ d₂ : List (K × V)) (k : K) :
    alookup (d₁ ++ d₂) k = (alookup d₁ k).orElse fun _ => alookup d₂ k := by
  induction d₁ with
  | nil => rfl
  | cons p rest ih =>
    obtain ⟨k0, v0⟩ := p
    by_cases h : k0 = k
    · simp [alookup, h, Option.orElse]
    · simp [alookup, h, ih]

theorem alookup_mem {K V : Type} [DecidableEq K]
    {d : List (K × V)} {k : K} {v : V}
    (h : alookup d k = some v) : (k, v) ∈ d := by
  induction d with
  | nil => simp [alookup] at h
  | cons p rest ih =>
    obtain ⟨k0, v0⟩ := p
    by_cases h0 : k0 = k
    · subst h0
      rw [alookup, if_pos rfl] at h
      cases h
      exact List.mem_cons_self _ _
    · rw [alookup, if_neg h0] at h
      exact List.mem_cons_of_mem _ (ih h)

theorem alookup_eq_none_of_notmem {K V : Type} [DecidableEq K]
    {d : List (K × V)} {k : K}
    (h : k ∉ d.map Prod.fst) : alookup d k = none := by
  induction d with
  | nil => rfl
  | cons p rest ih =>
    obtain ⟨k0, v0⟩ := p
    simp only [List.map_cons, List.mem_cons] at h
    push_neg at h
    rw [alookup, if_neg (fun he => h.1 he.symm)]
    exact ih h.2

theorem alookup_of_mem_keysNodup {K V : Type} [DecidableEq K]
    {d : List (K × V)} {e : K × V}
    (hnd : (d.map Prod.fst).Nodup) (he : e ∈ d) :
    alookup d e.1 = some e.2 := by
  induction d with
  | nil => simp at he
  | cons p rest ih =>
    rw [List.map_cons, List.nodup_cons] at hnd
    rcases List.mem_cons.mp he with rfl | he2
    · rw [alookup, if_pos rfl]
    · have hne : p.1 ≠ e.1 := fun hcontra =>
        hnd.1 (hcontra ▸ List.mem_map_of_mem Prod.fst he2)
      obtain ⟨k0, v0⟩ := p
      rw [alookup, if_neg hne]
      exact ih hnd.2 he2

theorem aset_eq_append {K V : Type} [DecidableEq K]
    {d : List (K × V)} {k : K} (v : V)
    (h : alookup d k = none) : aset d k v = d ++ [(k, v)] := by
  induction d with
  | nil => rfl
  | cons p rest ih =>
    obtain ⟨k0, v0⟩ := p
    rw [alookup] at h
    by_cases h0 : k0 = k
    · rw [if_pos h0] at h
      exact absurd h (by simp)
    · rw [if_neg h0] at h
      rw [aset, if_neg h0, ih h]
      rfl

theorem lookupBucket_dappend_self {K V : Type} [DecidableEq K]
    (m : List (K × List V)) (k : K) (x : V) :
    lookupBucket (dappend m k x) k = lookupBucket m k ++ [x] := by
  induction m with
  | nil => simp [dappend, lookupBucket, alookup]
  | cons p rest ih =>
    obtain ⟨k0, b⟩ := p
    by_cases h : k0 = k
    · subst h
      simp [dappend, lookupBucket, alookup]
    · simp only [dappend, if_neg h]
      simp only [lookupBucket, alookup, if_neg h]
      exact ih

theorem alookup_dappend_ne {K V : Type} [DecidableEq K]
    (m : List (K × List V)) {k k' : K} (x : V) (h : k' ≠ k) :
    alookup (dappend m k x) k' = alookup m k' := by
  induction m with
  | nil => simp [dappend, alookup, Ne.symm h]
  | cons p rest ih =>
    obtain ⟨k0, b⟩ := p
    by_cases h0 : k0 = k
    · subst h0
      simp [dappend, alookup, Ne.symm h]
    · simp only [dappend, if_neg h0, alookup]
      by_cases h1 : k0 = k'
      · simp [h1]
      · simp [h1, ih]

theorem lookupBucket_dappendMany_self {K V : Type} [DecidableEq K]
    (m : List (K × List V)) (k : K) (l : List V) :
    lookupBucket (dappendMany m k l) k = lookupBucket m k ++ l := by
  induction l generalizing m with
  | nil => simp [dappendMany]
  | cons x l ih =>
    show lookupBucket (dappendMany (dappend m k x) k l) k = _
    rw [ih, lookupBucket_dappend_self]
    simp

theorem alookup_dappendMany_ne {K V : Type} [DecidableEq K]
    (m : List (K × List V)) {k k' : K} (l : List V) (h : k' ≠ k) :
    alookup (dappendMany m k l) k' = alookup m k' := by
  induction l generalizing m with
  | nil => rfl
  | cons x l ih =>
    show alookup (dappendMany (dappend m k x) k l) k' = _
    rw [ih, alookup_dappend_ne _ _ h]

theorem keys_dappend {K V : Type} [DecidableEq K]
    (m : List (K × List V)) (k : K) (x : V) :
    (dappend m k x).map Prod.fst =
      if k ∈ m.map Prod.fst then m.map Prod.fst else m.map Prod.fst ++ [k] := by
  induction m with
  | nil => simp [dappend]
  | cons p rest ih =>
    obtain ⟨k0, b⟩ := p
    by_cases h : k0 = k
    · subst h
      simp [dappend]
    · simp only [dappend, if_neg h, List.map_cons, ih]
      have hne : ¬ k = k0 := fun he => h he.symm
      by_cases hm : k ∈ rest.map Prod.fst
      · simp [hm, hne]
      · simp [hm, hne]

theorem keys_dappendMany_of_mem {K V : Type} [DecidableEq K]
    (m : List (K × List V)) {k : K} (l : List V)
    (h : k ∈ m.map Prod.fst) :
    (dappendMany m k l).map Prod.fst = m.map Prod.fst := by
  induction l generalizing m with
  | nil => rfl
  | cons x l ih =>
    show (dappendMany (dappend m k x) k l).map Prod.fst = _
    rw [ih _ (by rw [keys_dappend, if_pos h]; exact h)]
    rw [keys_dappend, if_pos h]

theorem keys_dappendMany_of_notmem {K V : Type} [DecidableEq K]
    (m : List (K × List V)) {k : K} {l : List V}
    (h : k ∉ m.map Prod.fst) (hl : l ≠ []) :
    (dappendMany m k l).map Prod.fst = m.map Prod.fst ++ [k] := by
  cases l with
  | nil => exact absurd rfl hl
  | cons x l =>
    show (dappendMany (dappend m k x) k l).map Prod.fst = _
    have hk : (dappend m k x).map Prod.fst = m.map Prod.fst ++ [k] := by
      rw [keys_dappend, if_neg h]
    rw [keys_dappendMany_of_mem _ _ (by rw [hk]; simp), hk]

/-- The finalizing loop in closed form: the unattributed symbols are
appended, in order, to the sentinel bucket and to the attribution
dictionary. -/
theorem finStep_foldl :
    ∀ (syms : List Symbol) (ots : List (Option String × List Symbol))
      (sto : List (Symbol × Option String)), syms.Nodup →
      syms.foldl finStep (ots, sto) =
        (dappendMany ots none (syms.filter fun s => (alookup sto s).isNone),
         sto ++ (syms.filter fun s => (alookup sto s).isNone).map fun s => (s, none)) := by
  intro syms
  induction syms with
  | nil =>
    intro ots sto _
    simp [dappendMany]
  | cons s rest ih =>
    intro ots sto hnd
    rw [List.nodup_cons] at hnd
    obtain ⟨hs_notin, hnd_rest⟩ := hnd
    rw [List.foldl_cons]
    by_cases hs : (alookup sto s).isNone
    · have hnone : alookup sto s = none := by
        rwa [Option.isNone_iff_eq_none] at hs
      have hstep : finStep (ots, sto) s = (dappend ots none s, sto ++ [(s, none)]) := by
        rw [finStep, if_pos hs, aset_eq_append _ hnone]
      rw [hstep, ih _ _ hnd_rest]
      have hfilter : (rest.filter fun x => (alookup (sto ++ [(s, none)]) x).isNone)
          = rest.filter fun x => (alookup sto x).isNone := by
        apply List.filter_congr
        intro x hx
        have hxs : x ≠ s := fun he => hs_notin (he ▸ hx)
        rw [alookup_append]
        cases hsx : alookup sto x with
        | some v => rfl
        | none => simp [Option.orElse, alookup, Ne.symm hxs]
      rw [hfilter, List.filter_cons_of_pos (by simpa using hs)]
      refine Prod.ext ?_ ?_
      · rfl
      · show (sto ++ [(s, none)]) ++ _ = _
        rw [List.append_assoc]
        rfl
    · have hstep : finStep (ots, sto) s = (ots, sto) := by
        rw [finStep, if_neg hs]
      rw [hstep, ih _ _ hnd_rest, List.filter_cons_of_neg (by simpa using hs)]

/-- finalize_attribution in closed form. -/
theorem finalize_attribution_eq (kb : KB) (h1 : kb.symbols.Nodup) :
    finalize_attribution kb =
      { kb with
        object_to_symbols := dappendMany kb.object_to_symbols none (unattributed kb),
        symbol_to_object :=
          kb.symbol_to_object ++ (unattributed kb).map fun s => (s, none) } := by
  unfold finalize_attribution unattributed
  rw [finStep_foldl kb.symbols _ _ h1]

/-! Partition of the symbols into the attribution buckets. -/

theorem perm_of_nodup_of_mem_iff {α : Type} [DecidableEq α] {l₁ l₂ : List α}
    (h₁ : l₁.Nodup) (h₂ : l₂.Nodup) (h : ∀ x, x ∈ l₁ ↔ x ∈ l₂) : l₁.Perm l₂ := by
  rw [List.perm_iff_count]
  intro a
  by_cases ha : a ∈ l₁
  · rw [List.count_eq_one_of_mem h₁ ha, List.count_eq_one_of_mem h₂ ((h a).mp ha)]
  · rw [List.count_eq_zero_of_not_mem ha,
      List.count_eq_zero_of_not_mem (fun hc => ha ((h a).mpr hc))]

theorem mem_flattenBuckets {K V : Type} [DecidableEq K]
    {m : List (K × List V)} {s : V} :
    s ∈ flattenBuckets m ↔ ∃ e ∈ m, s ∈ (e : K × List V).2 := by
  rw [flattenBuckets, List.mem_flatten]
  constructor
  · rintro ⟨b, hb, hsb⟩
    rw [List.mem_map] at hb
    obtain ⟨e, he, rfl⟩ := hb
    exact ⟨e, he, hsb⟩
  · rintro ⟨e, he, hse⟩
    exact ⟨e.2, List.mem_map_of_mem Prod.snd he, hse⟩

theorem flattenBuckets_dappend {K V : Type} [DecidableEq K]
    (m : List (K × List V)) (k : K) (x : V) :
    (flattenBuckets (dappend m k x)).Perm (flattenBuckets m ++ [x]) := by
  induction m with
  | nil => simp [dappend, flattenBuckets]
  | cons p rest ih =>
    obtain ⟨k0, b⟩ := p
    by_cases h : k0 = k
    · subst h
      rw [show dappend ((k0, b) :: rest) k0 x = (k0, b ++ [x]) :: rest from by
        simp [dappend]]
      show ((b ++ [x]) ++ flattenBuckets rest).Perm ((b ++ flattenBuckets rest) ++ [x])
      rw [List.append_assoc, List.append_assoc]
      exact List.Perm.append_left b List.perm_append_comm
    · rw [show dappend ((k0, b) :: rest) k x = (k0, b) :: dappend rest k x from by
        simp [dappend, h]]
      show (b ++ flattenBuckets (dappend rest k x)).Perm ((b ++ flattenBuckets rest) ++ [x])
      rw [List.append_assoc]
      exact List.Perm.append_left b ih

theorem flattenBuckets_dappendMany {K V : Type} [DecidableEq K]
    (m : List (K × List V)) (k : K) (l : List V) :
    (flattenBuckets (dappendMany m k l)).Perm (flattenBuckets m ++ l) := by
  induction l generalizing m with
  | nil => simp [dappendMany]
  | cons x l ih =>
    show (flattenBuckets (dappendMany (dappend m k x) k l)).Perm _
    refine (ih (dappend m k x)).trans ?_
    refine ((flattenBuckets_dappend m k x).append_right l).trans ?_
    rw [List.append_assoc]
    exact List.Perm.refl _

theorem flattenBuckets_nodup (m : List (Option String × List Symbol))
    (sto : List (Symbol × Option String))
    (h2 : (m.map Prod.fst).Nodup)
    (h3 : ∀ e ∈ m, (e : Option String × List Symbol).2.Nodup)
    (h4 : ∀ e ∈ m, ∀ s ∈ (e : Option String × List Symbol).2,
      alookup sto s = some e.1) :
    (flattenBuckets m).Nodup := by
  rw [flattenBuckets, List.nodup_flatten]
  constructor
  · intro b hb
    rw [List.mem_map] at hb
    obtain ⟨e, he, rfl⟩ := hb
    exact h3 e he
  · rw [List.pairwise_map]
    have hkeys : m.Pairwise (fun e₁ e₂ => e₁.1 ≠ e₂.1) := by
      have := h2
      rw [List.Nodup, List.pairwise_map] at this
      exact this
    refine hkeys.imp_of_mem ?_
    intro e₁ e₂ h₁m h₂m hne s hs₁ hs₂
    have hv₁ := h4 e₁ h₁m s hs₁
    have hv₂ := h4 e₂ h₂m s hs₂
    rw [hv₁] at hv₂
    exact hne (Option.some_injective _ hv₂)

/-- Before finalizing, the buckets hold exactly the attributed
symbols. -/
theorem flatten_perm_attributed (kb : KB)
    (h1 : kb.symbols.Nodup)
    (h2 : (kb.object_to_symbols.map Prod.fst).Nodup)
    (h3 : ∀ e ∈ kb.object_to_symbols, (e : Option String × List Symbol).2.Nodup)
    (h4 : ∀ e ∈ kb.object_to_symbols, ∀ s ∈ (e : Option String × List Symbol).2,
      alookup kb.symbol_to_object s = some e.1)
    (h5 : ∀ q ∈ kb.symbol_to_object, ∃ e ∈ kb.object_to_symbols,
      e.1 = (q : Symbol × Option String).2 ∧ q.1 ∈ e.2)
    (h6 : ∀ e ∈ kb.object_to_symbols, ∀ s ∈ (e : Option String × List Symbol).2,
      s ∈ kb.symbols) :
    (flattenBuckets kb.object_to_symbols).Perm
      (kb.symbols.filter fun s => (alookup kb.symbol_to_object s).isSome) := by
  apply perm_of_nodup_of_mem_iff (flattenBuckets_nodup _ _ h2 h3 h4) (h1.filter _)
  intro s
  constructor
  · intro hs
    obtain ⟨e, he, hse⟩ := mem_flattenBuckets.mp hs
    rw [List.mem_filter]
    exact ⟨h6 e he s hse, by rw [h4 e he s hse]; rfl⟩
  · intro hs
    rw [List.mem_filter] at hs
    obtain ⟨hmem, hsome⟩ := hs
    obtain ⟨o, ho⟩ := Option.isSome_iff_exists.mp hsome
    obtain ⟨e, he, _, hse⟩ := h5 (s, o) (alookup_mem ho)
    exact mem_flattenBuckets.mpr ⟨e, he, hse⟩

/-- After finalizing, the buckets partition the symbol list. -/
theorem finalize_partition (kb : KB)
    (h1 : kb.symbols.Nodup)
    (h2 : (kb.object_to_symbols.map Prod.fst).Nodup)
    (h3 : ∀ e ∈ kb.object_to_symbols, (e : Option String × List Symbol).2.Nodup)
    (h4 : ∀ e ∈ kb.object_to_symbols, ∀ s ∈ (e : Option String × List Symbol).2,
      alookup kb.symbol_to_object s = some e.1)
    (h5 : ∀ q ∈ kb.symbol_to_object, ∃ e ∈ kb.object_to_symbols,
      e.1 = (q : Symbol × Option String).2 ∧ q.1 ∈ e.2)
    (h6 : ∀ e ∈ kb.object_to_symbols, ∀ s ∈ (e : Option String × List Symbol).2,
      s ∈ kb.symbols) :
    (flattenBuckets (finalize_attribution kb).object_to_symbols).Perm kb.symbols := by
  rw [finalize_attribution_eq kb h1]
  show (flattenBuckets (dappendMany kb.object_to_symbols none (unattributed kb))).Perm _
  refine (flattenBuckets_dappendMany _ _ _).trans ?_
  refine ((flatten_perm_attributed kb h1 h2 h3 h4 h5 h6).append_right _).trans ?_
  have hcong : unattributed kb =
      kb.symbols.filter fun s => !(alookup kb.symbol_to_object s).isSome := by
    rw [unattributed]
    apply List.filter_congr
    intro x _
    cases alookup kb.symbol_to_object x <;> rfl
  rw [hcong]
  exact List.filter_append_perm _ kb.symbols

/-- C7: after the attribution-finalizing pass, every symbol of the
Knowledge Base lies in exactly one bucket (a real object or the
sentinel) and the bucket sizes sum to the total symbol count.  The
hypotheses say the starting state is well formed: distinct symbols,
distinct bucket keys, duplicate-free buckets, agreement between the
grouping and the attribution dictionary, and buckets drawn from the
symbol list. -/
theorem attribution_completeness (kb : KB)
    (h1 : kb.symbols.Nodup)
    (h2 : (kb.object_to_symbols.map Prod.fst).Nodup)
    (h3 : ∀ e ∈ kb.object_to_symbols, (e : Option String × List Symbol).2.Nodup)
    (h4 : ∀ e ∈ kb.object_to_symbols, ∀ s ∈ (e : Option String × List Symbol).2,
      alookup kb.symbol_to_object s = some e.1)
    (h5 : ∀ q ∈ kb.symbol_to_object, ∃ e ∈ kb.object_to_symbols,
      e.1 = (q : Symbol × Option String).2 ∧ q.1 ∈ e.2)
    (h6 : ∀ e ∈ kb.object_to_symbols, ∀ s ∈ (e : Option String × List Symbol).2,
      s ∈ kb.symbols) :
    (flattenBuckets (finalize_attribution kb).object_to_symbols).Perm
        (finalize_attribution kb).symbols ∧
    (∀ s ∈ (finalize_attribution kb).symbols,
      (flattenBuckets (finalize_attribution kb).object_to_symbols).count s = 1) ∧
    sumBuckets (finalize_attribution kb).object_to_symbols =
      (finalize_attribution kb).symbols.length := by
  have hsymbols : (finalize_attribution kb).symbols = kb.symbols := rfl
  have hperm := finalize_partition kb h1 h2 h3 h4 h5 h6
  refine ⟨hsymbols ▸ hperm, ?_, ?_⟩
  · intro s hs
    rw [hsymbols] at hs
    rw [hperm.count_eq s]
    exact List.count_eq_one_of_mem h1 hs
  · rw [hsymbols]
    calc sumBuckets (finalize_attribution kb).object_to_symbols
        = (flattenBuckets (finalize_attribution kb).object_to_symbols).length := by
          rw [flattenBuckets, List.length_flatten, sumBuckets, List.map_map]
          rfl
      _ = kb.symbols.length := hperm.length_eq

/-- Witness for C7 on the sample Knowledge Base, whose second symbol is
unattributed before the pass. -/
theorem attribution_completeness_witness :
    kbSample.symbols.Nodup ∧
    (kbSample.object_to_symbols.map Prod.fst).Nodup ∧
    sumBuckets (finalize_attribution kbSample).object_to_symbols =
      (finalize_attribution kbSample).symbols.length := by
  refine ⟨by decide, by decide, ?_⟩
  exact (attribution_completeness kbSample (by decide) (by decide) (by decide)
    (by decide) (by decide) (by decide)).2.2

/-- C6 counterexample: two distinct symbols with the same address.  The
index built by the load step keeps only the second symbol — nothing
retains the first — and the complete set of diagnostics emitted by the
load is identical to that of the collision-free variant of the same
Knowledge Base, so the duplication is silently merged, not flagged. -/
theorem addr_index_claim_counterexample :
    (⟨SymKind.func, "int A(void);", some 4096⟩ : Symbol) ≠
      ⟨SymKind.func, "int B(void);", some 4096⟩ ∧
    buildAddrIndex kbCollide.symbols =
      [(some 4096, ⟨SymKind.func, "int B(void);", some 4096⟩)] ∧
    deserializeLogs kbCollide = deserializeLogs kbNoCollide := by
  refine ⟨by decide, by decide, by decide⟩

/-- C6 as amended: when building the address index, duplicate addresses
are silently merged — the index maps each address to the last symbol in
list order carrying it — and no load diagnostic reflects the index at
all (the logged messages are unchanged under any replacement of the
index), so a collision is never flagged. -/
theorem addr_index_amended :
    (∀ (syms : List Symbol) (k : Option Nat),
      alookup (buildAddrIndex syms) k =
        (syms.filter fun s => s.addr == k).getLast?) ∧
    (∀ (kb : KB) (idx : List (Option Nat × Symbol)),
      deserializeLogs { kb with addr_to_symbol := idx } = deserializeLogs kb) := by
  constructor
  · intro syms k
    rw [buildAddrIndex, alookup_foldl_aset]
    cases hf : (syms.filter fun s => s.addr == k).getLast? <;> rfl
  · intro kb idx
    rfl

/-! The round trip of the persistence codec: serialization in closed
form, then the deserializing fold in closed form, then claim C1. -/

theorem mapM_serialize {l : List Symbol} (hs : ∀ s ∈ l, s.addr.isSome) :
    l.mapM Symbol.serialize = some (l.map serTot) := by
  induction l with
  | nil => rfl
  | cons s rest ih =>
    obtain ⟨a, ha⟩ := Option.isSome_iff_exists.mp (hs s (List.mem_cons_self _ _))
    rw [List.mapM_cons, ih fun t ht => hs t (List.mem_cons_of_mem _ ht)]
    simp [Symbol.serialize, serTot, ha]

theorem ofRecord_serTot {k : SymKind} {s : Symbol}
    (ha : s.addr.isSome) (hk : s.kind = k) :
    Symbol.ofRecord k (serTot s) = some s := by
  obtain ⟨a, ha2⟩ := Option.isSome_iff_exists.mp ha
  obtain ⟨sk, sd, sa⟩ := s
  simp only at ha2 hk
  subst ha2 hk
  simp [Symbol.ofRecord, serTot, pyIntHex_pyHex]

theorem mkSyms_map_serTot {k : SymKind} {l : List Symbol}
    (hk : ∀ s ∈ l, s.kind = k) (hs : ∀ s ∈ l, s.addr.isSome) :
    mkSyms k (l.map serTot) = some l := by
  induction l with
  | nil => rfl
  | cons s rest ih =>
    rw [mkSyms, List.map_cons, List.mapM_cons]
    rw [ofRecord_serTot (hs s (List.mem_cons_self _ _)) (hk s (List.mem_cons_self _ _))]
    have := ih (fun t ht => hk t (List.mem_cons_of_mem _ ht))
      (fun t ht => hs t (List.mem_cons_of_mem _ ht))
    rw [mkSyms] at this
    rw [this]
    rfl

/-- The decoded symbols of one entry are the bucket, reordered. -/
theorem fsds_perm (kb : KB) (o : Option String)
    (hkinds : ∀ s ∈ lookupBucket kb.object_to_symbols o,
      s.kind = SymKind.func ∨ s.kind = SymKind.data) :
    (fsds kb o).Perm (lookupBucket kb.object_to_symbols o) := by
  rw [fsds]
  have hsort := List.perm_insertionSort
    (fun s t : Symbol => s.addr.getD 0 ≤ t.addr.getD 0)
    (lookupBucket kb.object_to_symbols o)
  have hcong : (sortByAddrKey (lookupBucket kb.object_to_symbols o)).filter
      (fun s => s.kind == SymKind.data) =
      (sortByAddrKey (lookupBucket kb.object_to_symbols o)).filter
      (fun s => !(s.kind == SymKind.func)) := by
    apply List.filter_congr
    intro x hx
    rcases hkinds x (hsort.mem_iff.mp hx) with h | h <;> rw [h] <;> rfl
  rw [hcong]
  exact (List.filter_append_perm _ _).trans hsort

/-- The serializing loop in closed form: one entry per object with a
nonempty bucket, in order. -/
theorem serializeObjsAux_eq (kb : KB) (order : List (Option String))
    (haddr : ∀ o ∈ order, ∀ s ∈ lookupBucket kb.object_to_symbols o,
      s.addr.isSome) :
    serializeObjsAux kb order = some (order.filterMap (emittedObj kb)) := by
  induction order with
  | nil => rfl
  | cons o rest ih =>
    have hb := haddr o (List.mem_cons_self _ _)
    have hrest := ih fun o2 ho2 => haddr o2 (List.mem_cons_of_mem _ ho2)
    by_cases he : (lookupBucket kb.object_to_symbols o).isEmpty
    · rw [show serializeObjsAux kb (o :: rest) = serializeObjsAux kb rest from by
        rw [serializeObjsAux]; rw [if_pos he]]
      rw [hrest, List.filterMap_cons]
      rw [show emittedObj kb o = none from by rw [emittedObj, if_pos he]]
    · have hsorted : ∀ s ∈ sortByAddrKey (lookupBucket kb.object_to_symbols o),
          s.addr.isSome := fun s hsm => hb s
        ((List.perm_insertionSort _ _).mem_iff.mp hsm)
      have hdata := mapM_serialize (l :=
        (sortByAddrKey (lookupBucket kb.object_to_symbols o)).filter
          fun s => s.kind == SymKind.data)
        (fun s hsf => hsorted s (List.mem_of_mem_filter hsf))
      have hfunc := mapM_serialize (l :=
        (sortByAddrKey (lookupBucket kb.object_to_symbols o)).filter
          fun s => s.kind == SymKind.func)
        (fun s hsf => hsorted s (List.mem_of_mem_filter hsf))
      rw [show serializeObjsAux kb (o :: rest) = some
          (⟨o, alookup kb.object_to_source o,
            ((sortByAddrKey (lookupBucket kb.object_to_symbols o)).filter fun s =>
              s.kind == SymKind.data).map serTot,
            ((sortByAddrKey (lookupBucket kb.object_to_symbols o)).filter fun s =>
              s.kind == SymKind.func).map serTot⟩ ::
            rest.filterMap (emittedObj kb)) from by
        rw [serializeObjsAux]
        rw [if_neg he, hdata, hfunc, hrest]]
      rw [List.filterMap_cons]
      rw [show emittedObj kb o = some _ from by rw [emittedObj, if_neg he]]

theorem alookup_map_const {K V : Type} [DecidableEq K]
    (l : List K) (c : V) (x : K) :
    alookup (l.map fun s => (s, c)) x = if x ∈ l then some c else none := by
  induction l with
  | nil => rfl
  | cons a rest ih =>
    rw [List.map_cons, alookup]
    by_cases h : a = x
    · subst h
      simp
    · rw [if_neg h, ih]
      simp [Ne.symm h]

/-- The deserializing loop over one object in closed form: symbols and
sources untouched, attributions appended. -/
theorem desStep_foldl (nameFn : String → String) (o : Option String) :
    ∀ (l : List Symbol) (kb : KB), l.Nodup →
      (∀ s ∈ l, alookup kb.symbol_to_object s = none) →
      (l.foldl (desStep nameFn o) kb).symbols = kb.symbols ∧
      (l.foldl (desStep nameFn o) kb).symbol_to_object =
        kb.symbol_to_object ++ l.map (fun s => (s, o)) ∧
      (l.foldl (desStep nameFn o) kb).object_to_source = kb.object_to_source := by
  intro l
  induction l with
  | nil =>
    intro kb _ _
    exact ⟨rfl, by simp, rfl⟩
  | cons s rest ih =>
    intro kb hnd hfresh
    rw [List.nodup_cons] at hnd
    rw [List.foldl_cons]
    have hfresh_s := hfresh s (List.mem_cons_self _ _)
    have h2 : (desStep nameFn o kb s).symbol_to_object =
        kb.symbol_to_object ++ [(s, o)] := by
      show aset kb.symbol_to_object s o = _
      exact aset_eq_append o hfresh_s
    have hfresh_rest : ∀ x ∈ rest,
        alookup (desStep nameFn o kb s).symbol_to_object x = none := by
      intro x hx
      rw [h2, alookup_append, hfresh x (List.mem_cons_of_mem _ hx)]
      have hxs : x ≠ s := fun he => hnd.1 (he ▸ hx)
      simp [Option.orElse, alookup, Ne.symm hxs]
    obtain ⟨ih1, ih2, ih3⟩ := ih (desStep nameFn o kb s) hnd.2 hfresh_rest
    refine ⟨ih1, ?_, ih3⟩
    rw [ih2, h2, List.append_assoc]
    rfl

/-- Deserializing one emitted object entry: the decoded symbols are
appended to the store, attributed to the entry, and the source
recorded when present. -/
theorem deserializeObj_emitted (nameFn : String → String) (kb1 kbAcc : KB)
    (o : Option String)
    (hkinds : ∀ s ∈ lookupBucket kb1.object_to_symbols o,
      s.kind = SymKind.func ∨ s.kind = SymKind.data)
    (haddr : ∀ s ∈ lookupBucket kb1.object_to_symbols o, s.addr.isSome)
    (hne : ¬ (lookupBucket kb1.object_to_symbols o).isEmpty = true)
    (hnd : (fsds kb1 o).Nodup)
    (hfresh : ∀ s ∈ fsds kb1 o, alookup kbAcc.symbol_to_object s = none) :
    ∃ kb2, deserializeObj nameFn kbAcc
        ⟨o, alookup kb1.object_to_source o,
          ((sortByAddrKey (lookupBucket kb1.object_to_symbols o)).filter fun s =>
            s.kind == SymKind.data).map serTot,
          ((sortByAddrKey (lookupBucket kb1.object_to_symbols o)).filter fun s =>
            s.kind == SymKind.func).map serTot⟩ = some kb2 ∧
      kb2.symbols = kbAcc.symbols ++ fsds kb1 o ∧
      kb2.symbol_to_object =
        kbAcc.symbol_to_object ++ (fsds kb1 o).map (fun s => (s, o)) ∧
      kb2.object_to_source = (match alookup kb1.object_to_source o with
        | some src => aset kbAcc.object_to_source o src
        | none => kbAcc.object_to_source) := by
  have hkF : ∀ s ∈ (sortByAddrKey (lookupBucket kb1.object_to_symbols o)).filter
      (fun s => s.kind == SymKind.func), s.kind = SymKind.func := by
    intro s hs
    simpa using List.of_mem_filter hs
  have hkD : ∀ s ∈ (sortByAddrKey (lookupBucket kb1.object_to_symbols o)).filter
      (fun s => s.kind == SymKind.data), s.kind = SymKind.data := by
    intro s hs
    simpa using List.of_mem_filter hs
  have haF : ∀ s ∈ (sortByAddrKey (lookupBucket kb1.object_to_symbols o)).filter
      (fun s => s.kind == SymKind.func), s.addr.isSome := fun s hs =>
    haddr s ((List.perm_insertionSort _ _).mem_iff.mp (List.mem_of_mem_filter hs))
  have haD : ∀ s ∈ (sortByAddrKey (lookupBucket kb1.object_to_symbols o)).filter
      (fun s => s.kind == SymKind.data), s.addr.isSome := fun s hs =>
    haddr s ((List.perm_insertionSort _ _).mem_iff.mp (List.mem_of_mem_filter hs))
  have hmkF := mkSyms_map_serTot hkF haF
  have hmkD := mkSyms_map_serTot hkD haD
  have hperm := fsds_perm kb1 o hkinds
  have hbne : lookupBucket kb1.object_to_symbols o ≠ [] := by
    intro hb
    exact hne (by rw [hb]; rfl)
  have hfsds_ne : ¬ (fsds kb1 o).isEmpty = true := by
    intro hf
    rw [List.isEmpty_iff] at hf
    have := hperm.length_eq
    rw [hf] at this
    exact hbne (List.length_eq_zero.mp this.symm)
  have hfsds_ne2 : ¬ ((((sortByAddrKey (lookupBucket kb1.object_to_symbols o)).filter
      fun s => s.kind == SymKind.func) ++
      ((sortByAddrKey (lookupBucket kb1.object_to_symbols o)).filter
      fun s => s.kind == SymKind.data)).isEmpty = true) := hfsds_ne
  cases halookup : alookup kb1.object_to_source o with
  | none =>
    obtain ⟨hsy, hst, hos⟩ := desStep_foldl nameFn o (fsds kb1 o)
      { kbAcc with symbols := kbAcc.symbols ++ fsds kb1 o } hnd
      (fun s hs => hfresh s hs)
    have heq : deserializeObj nameFn kbAcc
        ⟨o, none,
          ((sortByAddrKey (lookupBucket kb1.object_to_symbols o)).filter fun s =>
            s.kind == SymKind.data).map serTot,
          ((sortByAddrKey (lookupBucket kb1.object_to_symbols o)).filter fun s =>
            s.kind == SymKind.func).map serTot⟩ =
        some ((fsds kb1 o).foldl (desStep nameFn o)
          { kbAcc with symbols := kbAcc.symbols ++ fsds kb1 o }) := by
      unfold deserializeObj
      simp only [hmkF, hmkD]
      rw [if_neg hfsds_ne2]
      rfl
    exact ⟨_, heq, hsy, hst, hos⟩
  | some src =>
    obtain ⟨hsy, hst, hos⟩ := desStep_foldl nameFn o (fsds kb1 o)
      { kbAcc with
        object_to_source := aset kbAcc.object_to_source o src,
        symbols := kbAcc.symbols ++ fsds kb1 o } hnd
      (fun s hs => hfresh s hs)
    have heq : deserializeObj nameFn kbAcc
        ⟨o, some src,
          ((sortByAddrKey (lookupBucket kb1.object_to_symbols o)).filter fun s =>
            s.kind == SymKind.data).map serTot,
          ((sortByAddrKey (lookupBucket kb1.object_to_symbols o)).filter fun s =>
            s.kind == SymKind.func).map serTot⟩ =
        some ((fsds kb1 o).foldl (desStep nameFn o)
          { kbAcc with
            object_to_source := aset kbAcc.object_to_source o src,
            symbols := kbAcc.symbols ++ fsds kb1 o }) := by
      unfold deserializeObj
      simp only [hmkF, hmkD]
      rw [if_neg hfsds_ne2]
      rfl
    exact ⟨_, heq, hsy, hst, hos⟩

/-- Deserializing the whole emitted object list, in closed form. -/
theorem deserialize_objs_fold (nameFn : String → String) (kb1 : KB) :
    ∀ (order : List (Option String)), order.Nodup →
      (∀ o ∈ order, ∀ s ∈ lookupBucket kb1.object_to_symbols o,
        s.kind = SymKind.func ∨ s.kind = SymKind.data) →
      (∀ o ∈ order, ∀ s ∈ lookupBucket kb1.object_to_symbols o, s.addr.isSome) →
      (∀ o ∈ order, (fsds kb1 o).Nodup) →
      (∀ o1 ∈ order, ∀ o2 ∈ order, o1 ≠ o2 →
        List.Disjoint (lookupBucket kb1.object_to_symbols o1)
          (lookupBucket kb1.object_to_symbols o2)) →
      ∀ (kbAcc : KB),
      (∀ o ∈ order, ∀ s ∈ lookupBucket kb1.object_to_symbols o,
        alookup kbAcc.symbol_to_object s = none) →
      (∀ o ∈ order, alookup kbAcc.object_to_source o = none) →
      ∃ kb2,
        (order.filterMap (emittedObj kb1)).foldlM (deserializeObj nameFn) kbAcc =
          some kb2 ∧
        kb2.symbols = kbAcc.symbols ++ order.flatMap (fsds kb1) ∧
        kb2.symbol_to_object = kbAcc.symbol_to_object ++
          order.flatMap (fun o => (fsds kb1 o).map fun s => (s, o)) ∧
        kb2.object_to_source = kbAcc.object_to_source ++
          order.filterMap (fun o =>
            if (lookupBucket kb1.object_to_symbols o).isEmpty then none
            else (alookup kb1.object_to_source o).map fun src => (o, src)) := by
  intro order
  induction order with
  | nil =>
    intro _ _ _ _ _ kbAcc _ _
    exact ⟨kbAcc, rfl, by simp, by simp, by simp⟩
  | cons o rest ih =>
    intro hnd hkinds haddr hfnd hdisj kbAcc hfresh ho2s
    rw [List.nodup_cons] at hnd
    have hmemo : o ∈ o :: rest := List.mem_cons_self _ _
    by_cases he : (lookupBucket kb1.object_to_symbols o).isEmpty = true
    · have hbe : lookupBucket kb1.object_to_symbols o = [] := List.isEmpty_iff.mp he
      have hfsds0 : fsds kb1 o = [] := by
        rw [fsds, hbe]
        rfl
      obtain ⟨kb2, hfold, hsy, hst, hos⟩ := ih hnd.2
        (fun o2 ho2 => hkinds o2 (List.mem_cons_of_mem _ ho2))
        (fun o2 ho2 => haddr o2 (List.mem_cons_of_mem _ ho2))
        (fun o2 ho2 => hfnd o2 (List.mem_cons_of_mem _ ho2))
        (fun o1 ho1 o2 ho2 => hdisj o1 (List.mem_cons_of_mem _ ho1)
          o2 (List.mem_cons_of_mem _ ho2))
        kbAcc
        (fun o2 ho2 => hfresh o2 (List.mem_cons_of_mem _ ho2))
        (fun o2 ho2 => ho2s o2 (List.mem_cons_of_mem _ ho2))
      refine ⟨kb2, ?_, ?_, ?_, ?_⟩
      · rw [List.filterMap_cons,
          show emittedObj kb1 o = none from by rw [emittedObj, if_pos he]]
        exact hfold
      · rw [hsy, List.flatMap_cons, hfsds0]
        rfl
      · rw [hst, List.flatMap_cons, hfsds0]
        rfl
      · rw [hos, List.filterMap_cons]
        rw [show (if (lookupBucket kb1.object_to_symbols o).isEmpty then none
          else (alookup kb1.object_to_source o).map fun src => (o, src)) =
            (none : Option (Option String × String)) from by rw [if_pos he]]
    · obtain ⟨kbMid, heq, hsyM, hstM, hosM⟩ := deserializeObj_emitted nameFn kb1
        kbAcc o (hkinds o hmemo) (haddr o hmemo) he (hfnd o hmemo)
        (fun s hs => hfresh o hmemo s
          ((fsds_perm kb1 o (hkinds o hmemo)).mem_iff.mp hs))
      have hfreshR : ∀ o2 ∈ rest, ∀ s ∈ lookupBucket kb1.object_to_symbols o2,
          alookup kbMid.symbol_to_object s = none := by
        intro o2 ho2 s hs
        rw [hstM, alookup_append, hfresh o2 (List.mem_cons_of_mem _ ho2) s hs]
        have hso : s ∉ fsds kb1 o := by
          intro hsf
          have hsb := (fsds_perm kb1 o (hkinds o hmemo)).mem_iff.mp hsf
          have hne2 : o ≠ o2 := fun heq2 => hnd.1 (heq2 ▸ ho2)
          exact hdisj o hmemo o2 (List.mem_cons_of_mem _ ho2) hne2 hsb hs
        simp only [Option.orElse]
        rw [alookup_map_const, if_neg hso]
      have ho2sR : ∀ o2 ∈ rest, alookup kbMid.object_to_source o2 = none := by
        intro o2 ho2
        rw [hosM]
        have hno : o2 ≠ o := fun heq2 => hnd.1 (heq2 ▸ ho2)
        cases hsrc : alookup kb1.object_to_source o with
        | none => exact ho2s o2 (List.mem_cons_of_mem _ ho2)
        | some src =>
          rw [alookup_aset_ne _ _ hno]
          exact ho2s o2 (List.mem_cons_of_mem _ ho2)
      obtain ⟨kb2, hfold, hsy, hst, hos⟩ := ih hnd.2
        (fun o2 ho2 => hkinds o2 (List.mem_cons_of_mem _ ho2))
        (fun o2 ho2 => haddr o2 (List.mem_cons_of_mem _ ho2))
        (fun o2 ho2 => hfnd o2 (List.mem_cons_of_mem _ ho2))
        (fun o1 ho1 o2 ho2 => hdisj o1 (List.mem_cons_of_mem _ ho1)
          o2 (List.mem_cons_of_mem _ ho2))
        kbMid hfreshR ho2sR
      refine ⟨kb2, ?_, ?_, ?_, ?_⟩
      · rw [List.filterMap_cons,
          show emittedObj kb1 o = some ⟨o, alookup kb1.object_to_source o,
            ((sortByAddrKey (lookupBucket kb1.object_to_symbols o)).filter fun s =>
              s.kind == SymKind.data).map serTot,
            ((sortByAddrKey (lookupBucket kb1.object_to_symbols o)).filter fun s =>
              s.kind == SymKind.func).map serTot⟩ from by rw [emittedObj, if_neg he]]
        rw [List.foldlM_cons]
        simp only [heq, Option.bind_eq_bind, Option.some_bind]
        exact hfold
      · rw [hsy, hsyM, List.flatMap_cons, List.append_assoc]
      · rw [hst, hstM, List.flatMap_cons, List.append_assoc]
      · rw [hos, hosM, List.filterMap_cons]
        cases hsrc : alookup kb1.object_to_source o with
        | none => simp [if_neg he]
        | some src =>
          show aset kbAcc.object_to_source o src ++ _ = _
          rw [aset_eq_append src (ho2s o hmemo)]
          have hbne2 : ¬ (lookupBucket kb1.object_to_symbols o = []) :=
            fun hb => he (by rw [hb]; rfl)
          simp [hbne2, List.append_assoc]

/-! What the finalizing pass does to buckets, keys, and lookups. -/

theorem finalize_bucket_some (kb : KB) (h1 : kb.symbols.Nodup) (nm : String) :
    lookupBucket (finalize_attribution kb).object_to_symbols (some nm) =
      lookupBucket kb.object_to_symbols (some nm) := by
  rw [finalize_attribution_eq kb h1]
  show lookupBucket (dappendMany kb.object_to_symbols none (unattributed kb))
    (some nm) = _
  rw [lookupBucket, alookup_dappendMany_ne _ _ (by simp)]
  rfl

theorem finalize_bucket_none (kb : KB) (h1 : kb.symbols.Nodup) :
    lookupBucket (finalize_attribution kb).object_to_symbols none =
      lookupBucket kb.object_to_symbols none ++ unattributed kb := by
  rw [finalize_attribution_eq kb h1]
  exact lookupBucket_dappendMany_self _ _ _

theorem finalize_sto (kb : KB) (h1 : kb.symbols.Nodup) :
    (finalize_attribution kb).symbol_to_object =
      kb.symbol_to_object ++ (unattributed kb).map fun s => (s, none) := by
  rw [finalize_attribution_eq kb h1]

/-- Lookup form of the bucket-to-attribution agreement. -/
theorem bucket_attributed (kb : KB)
    (h4 : ∀ e ∈ kb.object_to_symbols, ∀ s ∈ (e : Option String × List Symbol).2,
      alookup kb.symbol_to_object s = some e.1) :
    ∀ o s, s ∈ lookupBucket kb.object_to_symbols o →
      alookup kb.symbol_to_object s = some o := by
  intro o s hs
  rw [lookupBucket] at hs
  cases hb : alookup kb.object_to_symbols o with
  | none => rw [hb] at hs; simp at hs
  | some b =>
    rw [hb] at hs
    exact h4 (o, b) (alookup_mem hb) s hs

/-- Lookup form of the attribution-to-bucket agreement. -/
theorem attributed_bucket (kb : KB)
    (h2 : (kb.object_to_symbols.map Prod.fst).Nodup)
    (h5 : ∀ q ∈ kb.symbol_to_object, ∃ e ∈ kb.object_to_symbols,
      e.1 = (q : Symbol × Option String).2 ∧ q.1 ∈ e.2) :
    ∀ s o, alookup kb.symbol_to_object s = some o →
      s ∈ lookupBucket kb.object_to_symbols o := by
  intro s o hso
  obtain ⟨e, he, he1, hse⟩ := h5 (s, o) (alookup_mem hso)
  have hl := alookup_of_mem_keysNodup h2 he
  rw [he1] at hl
  rw [lookupBucket, hl]
  exact hse

/-- Lookup form of bucket containment in the symbol list. -/
theorem bucket_sub (kb : KB)
    (h6 : ∀ e ∈ kb.object_to_symbols, ∀ s ∈ (e : Option String × List Symbol).2,
      s ∈ kb.symbols) :
    ∀ o s, s ∈ lookupBucket kb.object_to_symbols o → s ∈ kb.symbols := by
  intro o s hs
  rw [lookupBucket] at hs
  cases hb : alookup kb.object_to_symbols o with
  | none => rw [hb] at hs; simp at hs
  | some b =>
    rw [hb] at hs
    exact h6 (o, b) (alookup_mem hb) s hs

/-- Lookup form of bucket distinctness. -/
theorem bucket_nodup (kb : KB)
    (h3 : ∀ e ∈ kb.object_to_symbols, (e : Option String × List Symbol).2.Nodup) :
    ∀ o, (lookupBucket kb.object_to_symbols o).Nodup := by
  intro o
  rw [lookupBucket]
  cases hb : alookup kb.object_to_symbols o with
  | none => simp
  | some b => exact h3 (o, b) (alookup_mem hb)

/-- After finalizing, membership in a bucket coincides with the
attribution lookup. -/
theorem finalize_consistency (kb : KB)
    (h1 : kb.symbols.Nodup)
    (h2 : (kb.object_to_symbols.map Prod.fst).Nodup)
    (h4 : ∀ e ∈ kb.object_to_symbols, ∀ s ∈ (e : Option String × List Symbol).2,
      alookup kb.symbol_to_object s = some e.1)
    (h5 : ∀ q ∈ kb.symbol_to_object, ∃ e ∈ kb.object_to_symbols,
      e.1 = (q : Symbol × Option String).2 ∧ q.1 ∈ e.2) :
    ∀ s o, s ∈ lookupBucket (finalize_attribution kb).object_to_symbols o ↔
      alookup (finalize_attribution kb).symbol_to_object s = some o := by
  intro s o
  rw [finalize_sto kb h1, alookup_append]
  constructor
  · intro hs
    cases o with
    | some nm =>
      rw [finalize_bucket_some kb h1 nm] at hs
      rw [bucket_attributed kb h4 (some nm) s hs]
      rfl
    | none =>
      rw [finalize_bucket_none kb h1] at hs
      rcases List.mem_append.mp hs with hs0 | hsU
      · rw [bucket_attributed kb h4 none s hs0]
        rfl
      · have hnone : alookup kb.symbol_to_object s = none := by
          have := List.of_mem_filter hsU
          rwa [Option.isNone_iff_eq_none] at this
        rw [hnone]
        simp only [Option.orElse]
        rw [alookup_map_const, if_pos hsU]
  · intro hso
    cases hx : alookup kb.symbol_to_object s with
    | some o2 =>
      rw [hx] at hso
      simp only [Option.orElse] at hso
      injection hso with ho
      subst ho
      have hsb := attributed_bucket kb h2 h5 s o2 hx
      cases o2 with
      | some nm =>
        rw [finalize_bucket_some kb h1 nm]
        exact hsb
      | none =>
        rw [finalize_bucket_none kb h1]
        exact List.mem_append_left _ hsb
    | none =>
      rw [hx] at hso
      simp only [Option.orElse] at hso
      rw [alookup_map_const] at hso
      by_cases hsm : s ∈ unattributed kb
      · rw [if_pos hsm] at hso
        cases hso
        rw [finalize_bucket_none kb h1]
        exact List.mem_append_right _ hsm
      · rw [if_neg hsm] at hso
        cases hso

/-- After finalizing, the bucket keys stay distinct and at most the
sentinel key is added. -/
theorem finalize_keys (kb : KB)
    (h1 : kb.symbols.Nodup)
    (h2 : (kb.object_to_symbols.map Prod.fst).Nodup) :
    (((finalize_attribution kb).object_to_symbols.map Prod.fst).Nodup) ∧
    (∀ k, k ∈ (finalize_attribution kb).object_to_symbols.map Prod.fst →
      k ∈ kb.object_to_symbols.map Prod.fst ∨ k = none) := by
  rw [finalize_attribution_eq kb h1]
  show ((dappendMany kb.object_to_symbols none (unattributed kb)).map Prod.fst).Nodup ∧ _
  by_cases hm : none ∈ kb.object_to_symbols.map Prod.fst
  · rw [keys_dappendMany_of_mem _ _ hm]
    exact ⟨h2, fun k hk => Or.inl hk⟩
  · by_cases hU : unattributed kb = []
    · rw [hU]
      exact ⟨h2, fun k hk => Or.inl hk⟩
    · rw [keys_dappendMany_of_notmem _ hm hU]
      constructor
      · refine List.Nodup.append h2 (by simp) ?_
        intro k hk1 hk2
        simp at hk2
        subst hk2
        exact hm hk1
      · intro k hk
        rcases List.mem_append.mp hk with h | h
        · exact Or.inl h
        · simp at h
          exact Or.inr h

/-! The emission order of the serializer: distinct entries covering
every bucket key. -/

theorem headerObjOrder_nodup (kb : KB)
    (hk : (kb.object_to_symbols.map Prod.fst).Nodup) :
    (headerObjOrder kb).Nodup := by
  rw [headerObjOrder]
  have hnames : (objNames kb).Nodup := by
    rw [objNames]
    refine List.Nodup.filterMap ?_ hk
    intro a a2 b hb hb2
    simp only [id] at hb hb2
    subst hb
    cases hb2
    rfl
  have hsorted : (List.insertionSort (· ≤ ·) (objNames kb)).Nodup :=
    (List.perm_insertionSort _ _).nodup_iff.mpr hnames
  refine List.Nodup.append (hsorted.map (Option.some_injective String)) (by simp) ?_
  intro k hk1 hk2
  simp at hk2
  subst hk2
  rw [List.mem_map] at hk1
  obtain ⟨nm, _, hcontra⟩ := hk1
  cases hcontra

theorem keys_sub_headerObjOrder (kb : KB) :
    ∀ k ∈ kb.object_to_symbols.map Prod.fst, k ∈ headerObjOrder kb := by
  intro k hk
  rw [headerObjOrder, List.mem_append]
  cases k with
  | none => exact Or.inr (by simp)
  | some nm =>
    refine Or.inl ?_
    rw [List.mem_map]
    refine ⟨nm, ?_, rfl⟩
    rw [(List.perm_insertionSort _ _).mem_iff]
    rw [objNames, List.mem_filterMap]
    exact ⟨some nm, hk, rfl⟩

/-! Gathering the buckets along the emission order. -/

theorem flatMap_congr {α β : Type} {l : List α} {f g : α → List β}
    (h : ∀ x ∈ l, f x = g x) : l.flatMap f = l.flatMap g := by
  induction l with
  | nil => rfl
  | cons x rest ih =>
    rw [List.flatMap_cons, List.flatMap_cons, h x (List.mem_cons_self _ _),
      ih fun y hy => h y (List.mem_cons_of_mem _ hy)]

theorem flatMap_perm_congr {α β : Type} {l : List α} {f g : α → List β}
    (h : ∀ x ∈ l, (f x).Perm (g x)) : (l.flatMap f).Perm (l.flatMap g) := by
  induction l with
  | nil => exact List.Perm.refl _
  | cons x rest ih =>
    rw [List.flatMap_cons, List.flatMap_cons]
    exact (h x (List.mem_cons_self _ _)).append
      (ih fun y hy => h y (List.mem_cons_of_mem _ hy))

theorem flatMap_lookup_keys {K V : Type} [DecidableEq K]
    (m : List (K × List V)) (hnd : (m.map Prod.fst).Nodup) :
    (m.map Prod.fst).flatMap (lookupBucket m) = flattenBuckets m := by
  induction m with
  | nil => rfl
  | cons p rest ih =>
    obtain ⟨k0, b⟩ := p
    rw [List.map_cons, List.nodup_cons] at hnd
    rw [List.map_cons, List.flatMap_cons]
    have hk0 : lookupBucket ((k0, b) :: rest) k0 = b := by
      rw [lookupBucket, alookup, if_pos rfl]
      rfl
    have hcong : ∀ k ∈ rest.map Prod.fst,
        lookupBucket ((k0, b) :: rest) k = lookupBucket rest k := by
      intro k hkm
      have hne : k0 ≠ k := fun he => hnd.1 (he ▸ hkm)
      rw [lookupBucket, alookup, if_neg hne]
      rfl
    rw [hk0, flatMap_congr hcong, ih hnd.2]
    rfl

theorem flatMap_lookupBucket_perm {K V : Type} [DecidableEq K]
    (m : List (K × List V)) (order : List K)
    (hknd : (m.map Prod.fst).Nodup) (hord : order.Nodup)
    (hsub : ∀ k ∈ m.map Prod.fst, k ∈ order) :
    (order.flatMap (lookupBucket m)).Perm (flattenBuckets m) := by
  have hsplit := List.filter_append_perm
    (fun k => decide (k ∈ m.map Prod.fst)) order
  have hperm1 : (order.flatMap (lookupBucket m)).Perm
      (((order.filter fun k => decide (k ∈ m.map Prod.fst)) ++
        (order.filter fun k => !decide (k ∈ m.map Prod.fst))).flatMap
        (lookupBucket m)) :=
    (hsplit.symm.map (lookupBucket m)).flatten
  refine hperm1.trans ?_
  rw [List.flatMap_append]
  have hout : (order.filter fun k => !decide (k ∈ m.map Prod.fst)).flatMap
      (lookupBucket m) = [] := by
    rw [List.flatMap_eq_nil_iff]
    intro k hkf
    have : ¬ k ∈ m.map Prod.fst := by
      have := List.of_mem_filter hkf
      simpa using this
    rw [lookupBucket, alookup_eq_none_of_notmem this]
    rfl
  rw [hout, List.append_nil]
  have hin : (order.filter fun k => decide (k ∈ m.map Prod.fst)).Perm
      (m.map Prod.fst) := by
    refine perm_of_nodup_of_mem_iff (hord.filter _) hknd ?_
    intro k
    rw [List.mem_filter]
    constructor
    · intro hk
      simpa using hk.2
    · intro hk
      exact ⟨hsub k hk, by simpa using hk⟩
  refine ((hin.map (lookupBucket m)).flatten).trans ?_
  rw [show (List.map (lookupBucket m) (m.map Prod.fst)).flatten =
    (m.map Prod.fst).flatMap (lookupBucket m) from rfl]
  rw [flatMap_lookup_keys m hknd]

/-! Looking a symbol up in the rebuilt attribution pairs. -/

theorem alookup_flatMap_found {K V : Type} [DecidableEq K] [DecidableEq V]
    (order : List K) (f : K → List V) (s : V) (o : K)
    (hmem : o ∈ order) (hs : s ∈ f o)
    (huniq : ∀ o2 ∈ order, s ∈ f o2 → o2 = o) :
    alookup (order.flatMap fun o2 => (f o2).map fun t => (t, o2)) s = some o := by
  induction order with
  | nil => simp at hmem
  | cons o2 rest ih =>
    rw [List.flatMap_cons, alookup_append, alookup_map_const]
    by_cases hso2 : s ∈ f o2
    · have ho2 : o2 = o := huniq o2 (List.mem_cons_self _ _) hso2
      subst ho2
      rw [if_pos hso2]
      rfl
    · rw [if_neg hso2]
      simp only [Option.orElse]
      have ho2r : o ∈ rest := by
        rcases List.mem_cons.mp hmem with rfl | h
        · exact absurd hs hso2
        · exact h
      exact ih ho2r fun o3 h3 => huniq o3 (List.mem_cons_of_mem _ h3)

theorem alookup_flatMap_none {K V : Type} [DecidableEq K] [DecidableEq V]
    (order : List K) (f : K → List V) (s : V)
    (hnone : ∀ o2 ∈ order, s ∉ f o2) :
    alookup (order.flatMap fun o2 => (f o2).map fun t => (t, o2)) s = none := by
  induction order with
  | nil => rfl
  | cons o2 rest ih =>
    rw [List.flatMap_cons, alookup_append, alookup_map_const,
      if_neg (hnone o2 (List.mem_cons_self _ _))]
    simp only [Option.orElse]
    exact ih fun o3 h3 => hnone o3 (List.mem_cons_of_mem _ h3)

theorem alookup_filterMap_keyed {K V : Type} [DecidableEq K]
    (order : List K) (g : K → Option V) (k : K) :
    alookup (order.filterMap fun o => (g o).map fun v => (o, v)) k =
      if k ∈ order then g k else none := by
  induction order with
  | nil => simp [alookup]
  | cons o rest ih =>
    rw [List.filterMap_cons]
    cases hgo : g o with
    | none =>
      show alookup (List.filterMap (fun o2 => Option.map (fun v => (o2, v)) (g o2)) rest) k =
        if k ∈ o :: rest then g k else none
      rw [ih]
      by_cases hk : k = o
      · subst hk
        by_cases hkr : k ∈ rest
        · simp [hkr]
        · simp [hkr, hgo]
      · simp [List.mem_cons, hk]
    | some v =>
      show alookup ((o, v) ::
        List.filterMap (fun o2 => Option.map (fun v => (o2, v)) (g o2)) rest) k = _
      rw [alookup]
      by_cases ho : o = k
      · subst ho
        rw [if_pos rfl]
        simp [hgo]
      · rw [if_neg ho, ih]
        simp [List.mem_cons, Ne.symm ho]

/-- C1 as amended: the persistence round trip.  For a well-formed
Knowledge Base whose symbols are Data or Function instances with known
addresses, serialize succeeds (mutating the state into its finalized
form) and deserializing the written structure reproduces the same
multiset of symbols (same variants, declarations and addresses) and the
same symbol-to-object attributions; the object-to-source mapping is
reproduced exactly for every object owning at least one symbol after
finalization, while a sourced object owning no symbols is dropped by
the round trip — afterwards it has no mapping. -/
theorem kb_roundtrip (nameFn : String → String) (kb : KB)
    (h1 : kb.symbols.Nodup)
    (h2 : (kb.object_to_symbols.map Prod.fst).Nodup)
    (h3 : ∀ e ∈ kb.object_to_symbols, (e : Option String × List Symbol).2.Nodup)
    (h4 : ∀ e ∈ kb.object_to_symbols, ∀ s ∈ (e : Option String × List Symbol).2,
      alookup kb.symbol_to_object s = some e.1)
    (h5 : ∀ q ∈ kb.symbol_to_object, ∃ e ∈ kb.object_to_symbols,
      e.1 = (q : Symbol × Option String).2 ∧ q.1 ∈ e.2)
    (h6 : ∀ e ∈ kb.object_to_symbols, ∀ s ∈ (e : Option String × List Symbol).2,
      s ∈ kb.symbols)
    (h8 : ∀ s ∈ kb.symbols, s.kind = SymKind.func ∨ s.kind = SymKind.data)
    (h9 : ∀ s ∈ kb.symbols, s.addr.isSome) :
    ∃ (out : List ObjData) (kb2 : KB),
      (KB.serialize kb).1 = some out ∧
      (KB.serialize kb).2 = finalize_attribution kb ∧
      KB.deserialize nameFn out = some kb2 ∧
      kb2.symbols.Perm (finalize_attribution kb).symbols ∧
      (∀ s, alookup kb2.symbol_to_object s =
        alookup (finalize_attribution kb).symbol_to_object s) ∧
      (∀ o, lookupBucket (finalize_attribution kb).object_to_symbols o ≠ [] →
        alookup kb2.object_to_source o =
          alookup (finalize_attribution kb).object_to_source o) ∧
      (∀ o, lookupBucket (finalize_attribution kb).object_to_symbols o = [] →
        alookup kb2.object_to_source o = none) := by
  have hkeys := finalize_keys kb h1 h2
  have hcons := finalize_consistency kb h1 h2 h4 h5
  have hbsub1 : ∀ o, ∀ s ∈ lookupBucket
      (finalize_attribution kb).object_to_symbols o, s ∈ kb.symbols := by
    intro o s hs
    cases o with
    | some nm =>
      rw [finalize_bucket_some kb h1 nm] at hs
      exact bucket_sub kb h6 _ s hs
    | none =>
      rw [finalize_bucket_none kb h1] at hs
      rcases List.mem_append.mp hs with h | h
      · exact bucket_sub kb h6 _ s h
      · exact List.mem_of_mem_filter h
  have hkinds1 : ∀ o, ∀ s ∈ lookupBucket
      (finalize_attribution kb).object_to_symbols o,
      s.kind = SymKind.func ∨ s.kind = SymKind.data :=
    fun o s hs => h8 s (hbsub1 o s hs)
  have haddr1 : ∀ o, ∀ s ∈ lookupBucket
      (finalize_attribution kb).object_to_symbols o, s.addr.isSome :=
    fun o s hs => h9 s (hbsub1 o s hs)
  have hbnd1 : ∀ o, (lookupBucket
      (finalize_attribution kb).object_to_symbols o).Nodup := by
    intro o
    cases o with
    | some nm =>
      rw [finalize_bucket_some kb h1 nm]
      exact bucket_nodup kb h3 _
    | none =>
      rw [finalize_bucket_none kb h1]
      refine List.Nodup.append (bucket_nodup kb h3 none) (h1.filter _) ?_
      intro s hs0 hsU
      have hsome := bucket_attributed kb h4 none s hs0
      have hnone : alookup kb.symbol_to_object s = none := by
        have := List.of_mem_filter hsU
        rwa [Option.isNone_iff_eq_none] at this
      rw [hsome] at hnone
      cases hnone
  have hfnd1 : ∀ o, (fsds (finalize_attribution kb) o).Nodup := fun o =>
    ((fsds_perm _ o (hkinds1 o)).nodup_iff).mpr (hbnd1 o)
  have hdisj1 : ∀ o1 o2 : Option String, o1 ≠ o2 →
      List.Disjoint
        (lookupBucket (finalize_attribution kb).object_to_symbols o1)
        (lookupBucket (finalize_attribution kb).object_to_symbols o2) := by
    intro o1 o2 hne s hs1 hs2
    have e1 := (hcons s o1).mp hs1
    have e2 := (hcons s o2).mp hs2
    rw [e1] at e2
    exact hne (Option.some_injective _ e2)
  have hordnd := headerObjOrder_nodup (finalize_attribution kb) hkeys.1
  have hsubord := keys_sub_headerObjOrder (finalize_attribution kb)
  have hser := serializeObjsAux_eq (finalize_attribution kb)
    (headerObjOrder (finalize_attribution kb)) (fun o _ => haddr1 o)
  obtain ⟨kbD, hfold, hsy, hst, hos⟩ := deserialize_objs_fold nameFn
    (finalize_attribution kb) (headerObjOrder (finalize_attribution kb))
    hordnd (fun o _ => hkinds1 o) (fun o _ => haddr1 o) (fun o _ => hfnd1 o)
    (fun o1 _ o2 _ => hdisj1 o1 o2) KB.empty
    (fun o _ s _ => rfl) (fun o _ => rfl)
  have hchar : ∀ o : Option String, alookup kbD.object_to_source o =
      if o ∈ headerObjOrder (finalize_attribution kb) then
        (if (lookupBucket (finalize_attribution kb).object_to_symbols o).isEmpty
         then none
         else alookup (finalize_attribution kb).object_to_source o)
      else none := by
    intro o
    rw [hos, show KB.empty.object_to_source =
      ([] : List (Option String × String)) from rfl, List.nil_append]
    have hshape : (headerObjOrder (finalize_attribution kb)).filterMap (fun o2 =>
        if (lookupBucket (finalize_attribution kb).object_to_symbols o2).isEmpty
        then none
        else (alookup (finalize_attribution kb).object_to_source o2).map
          fun src => (o2, src)) =
      (headerObjOrder (finalize_attribution kb)).filterMap (fun o2 =>
        (if (lookupBucket (finalize_attribution kb).object_to_symbols o2).isEmpty
         then none
         else alookup (finalize_attribution kb).object_to_source o2).map
          fun src => (o2, src)) := by
      apply List.filterMap_congr
      intro x _
      by_cases hx2 : (lookupBucket
        (finalize_attribution kb).object_to_symbols x).isEmpty
      · rw [if_pos hx2, if_pos hx2]
        rfl
      · rw [if_neg hx2, if_neg hx2]
    rw [hshape, alookup_filterMap_keyed]
    by_cases hmem : o ∈ headerObjOrder (finalize_attribution kb)
    · rw [if_pos hmem, if_pos hmem]
    · rw [if_neg hmem, if_neg hmem]
  refine ⟨(headerObjOrder (finalize_attribution kb)).filterMap
      (emittedObj (finalize_attribution kb)),
    { kbD with addr_to_symbol := buildAddrIndex kbD.symbols },
    hser, rfl, ?_, ?_, ?_, ?_, ?_⟩
  · rw [KB.deserialize, hfold]
    rfl
  · show kbD.symbols.Perm kb.symbols
    rw [hsy, show KB.empty.symbols = ([] : List Symbol) from rfl,
      List.nil_append]
    refine (flatMap_perm_congr fun o _ => fsds_perm _ o (hkinds1 o)).trans ?_
    refine (flatMap_lookupBucket_perm _ _ hkeys.1 hordnd hsubord).trans ?_
    exact finalize_partition kb h1 h2 h3 h4 h5 h6
  · intro s
    show alookup kbD.symbol_to_object s = _
    rw [hst, show KB.empty.symbol_to_object =
      ([] : List (Symbol × Option String)) from rfl, List.nil_append]
    cases hx : alookup (finalize_attribution kb).symbol_to_object s with
    | some o =>
      have hsb := (hcons s o).mpr hx
      have hokeys : o ∈ (finalize_attribution kb).object_to_symbols.map
          Prod.fst := by
        rw [lookupBucket] at hsb
        cases hb : alookup (finalize_attribution kb).object_to_symbols o with
        | none => rw [hb] at hsb; simp at hsb
        | some b => exact List.mem_map_of_mem Prod.fst (alookup_mem hb)
      have homem := hsubord o hokeys
      have hsf : s ∈ fsds (finalize_attribution kb) o :=
        (fsds_perm _ o (hkinds1 o)).mem_iff.mpr hsb
      rw [alookup_flatMap_found (headerObjOrder (finalize_attribution kb))
        (fsds (finalize_attribution kb)) s o homem hsf ?_]
      · intro o2 _ hso2
        have hm2 := (hcons s o2).mp
          ((fsds_perm _ o2 (hkinds1 o2)).mem_iff.mp hso2)
        rw [hx] at hm2
        exact Option.some_injective _ hm2.symm
    | none =>
      rw [alookup_flatMap_none (headerObjOrder (finalize_attribution kb))
        (fsds (finalize_attribution kb)) s ?_]
      · intro o2 _ hso2
        have hm2 := (hcons s o2).mp
          ((fsds_perm _ o2 (hkinds1 o2)).mem_iff.mp hso2)
        rw [hx] at hm2
        cases hm2
  · intro o hne
    show alookup kbD.object_to_source o = _
    rw [hchar o]
    have hbk : o ∈ (finalize_attribution kb).object_to_symbols.map Prod.fst := by
      rw [lookupBucket] at hne
      cases halo : alookup (finalize_attribution kb).object_to_symbols o with
      | none => rw [halo] at hne; simp at hne
      | some b => exact List.mem_map_of_mem Prod.fst (alookup_mem halo)
    rw [if_pos (hsubord o hbk), if_neg (fun he => hne (List.isEmpty_iff.mp he))]
  · intro o hemp
    show alookup kbD.object_to_source o = none
    rw [hchar o]
    by_cases hmem : o ∈ headerObjOrder (finalize_attribution kb)
    · rw [if_pos hmem, if_pos (List.isEmpty_iff.mpr hemp)]
    · rw [if_neg hmem]

/-- C1 counterexample: the serializer emits only objects owning
symbols, while the load path records a source mapping even for a
symbol-less object entry.  On this reachable state serialization
succeeds and the round trip completes, yet the resulting Knowledge Base
has no source mapping for the object b.obj although the serialized
state maps it — so the object-to-source mappings are not equal, against
the claim as stated. -/
theorem kb_roundtrip_claim_counterexample :
    alookup (finalize_attribution kbSourceOnly).object_to_source
      (some "b.obj") = some "b.c" ∧
    ((KB.serialize kbSourceOnly).1.bind
      (KB.deserialize (fun x => x))).isSome = true ∧
    ((KB.serialize kbSourceOnly).1.bind (KB.deserialize (fun x => x))).map
      (fun kb2 => alookup kb2.object_to_source (some "b.obj")) = some none := by
  refine ⟨by decide, by decide, by decide⟩

/-- Witness for the amended C1 on the sample Knowledge Base. -/
theorem kb_roundtrip_witness :
    kbSample.symbols.Nodup ∧
    (kbSample.object_to_symbols.map Prod.fst).Nodup ∧
    (∃ (out : List ObjData) (kb2 : KB),
      (KB.serialize kbSample).1 = some out ∧
      (KB.serialize kbSample).2 = finalize_attribution kbSample ∧
      KB.deserialize (fun x => x) out = some kb2 ∧
      kb2.symbols.Perm (finalize_attribution kbSample).symbols ∧
      (∀ s, alookup kb2.symbol_to_object s =
        alookup (finalize_attribution kbSample).symbol_to_object s) ∧
      (∀ o, lookupBucket (finalize_attribution kbSample).object_to_symbols o ≠ [] →
        alookup kb2.object_to_source o =
          alookup (finalize_attribution kbSample).object_to_source o) ∧
      (∀ o, lookupBucket (finalize_attribution kbSample).object_to_symbols o = [] →
        alookup kb2.object_to_source o = none)) := by
  refine ⟨by decide, by decide, ?_⟩
  exact kb_roundtrip (fun x => x) kbSample (by decide) (by decide) (by decide)
    (by decide) (by decide) (by decide) (by decide) (by decide)

end Halo
